import Mathlib

/-!
Verification development for the ticha-magic repository.

This file gives a shallow embedding, in Lean 4, of the parts of the
repository that the specification's claims are about:

* `tag_eq` and `outline_tag_eq` (src/common.py, src/src/tei_tools.py):
  namespace-insensitive tag comparison;
* `strip_accents_and_spaces` (src/common.py lines 34-54, with an identical
  copy in src/flexify.py lines 222-241): the word-normalization function;
* `FLExDict.lookup` (src/flexify.py lines 158-177): the gloss-dictionary
  lookup with exact-section precedence and longest-prefix fallback;
* `FLExParser` (src/flexify.py lines 21-111): the SAX rewriter that wraps
  marked words and injects gloss annotations, with its diagnostic counters;
* `TEIPager` (src/xml_to_html.py lines 35-162): the SAX rewriter that turns
  page-break / column-break markers into page and column wrapper divs;
* the second `TEIPager` revision of src/src/tei_tools.py (lines 45-174),
  which additionally validates the context of column breaks.

Python strings are modelled as Lean `String` / `List Char`; Python dicts
(which preserve insertion order) as association lists with unique keys;
SAX events as an inductive type; the stateful SAX handlers as explicit
state-passing step functions returning `Except` (a raised `SaxError` or
`IndexError` becomes an `error` value that aborts the fold, matching the
fail-fast propagation of the code).
-/

/-! ## Python string primitives -/

/-- The scanner behind Python `s.replace(old, new)` on character lists:
replace all non-overlapping occurrences of `old`, scanning left to right,
with an explicit step budget so that the recursion is structural.
(Python's behaviour for `old = ''` differs — it interleaves `new`
everywhere — but every replacement key used in this repository is
non-empty, so the `old = []` case, which this model scans past, is never
hit.) -/
def pyReplaceFuel (old new : List Char) : Nat → List Char → List Char
  | _, [] => []
  | 0, s => s
  | fuel + 1, c :: rest =>
    if old ≠ [] ∧ old.isPrefixOf (c :: rest) then
      new ++ pyReplaceFuel old new fuel ((c :: rest).drop old.length)
    else
      c :: pyReplaceFuel old new fuel rest

/-- Python `s.replace(old, new)`.  The fuel `s.length` is an upper bound on
the number of scanning steps (each step consumes at least one character of
`s` whenever `old` is non-empty), so `pyReplaceFuel` never exhausts it. -/
def pyReplace (old new s : List Char) : List Char :=
  pyReplaceFuel old new s.length s

/-- Python `s.replace(old, new)` on `String`s. -/
def pyReplaceStr (s old new : String) : String :=
  ⟨pyReplace old.toList new.toList s.toList⟩

/-- Python `s.endswith(t)`. -/
def pyEndsWith (s suffix : String) : Bool :=
  suffix.toList.isSuffixOf s.toList

/-- Python `s.startswith(t)`. -/
def pyStartsWith (s pre : String) : Bool :=
  pre.toList.isPrefixOf s.toList

/-- The whitespace characters recognized by Python's `str.split()` with no
arguments, restricted to the ASCII range (Python also splits on further
Unicode space characters; none occur in the data this repository handles). -/
def pyIsSpace (c : Char) : Bool :=
  c == ' ' || c == '\t' || c == '\n' || c == '\r' || c == '\x0b' || c == '\x0c'

/-- Python `str.lower`, restricted to the character repertoire relevant to
this repository: ASCII letters plus the precomposed accented Latin letters
whose lowercase forms appear in the accent table below.  All other
characters are left unchanged (as Python does for unmapped characters). -/
def lowerTable : List (Char × Char) :=
  [('A', 'a'), ('B', 'b'), ('C', 'c'), ('D', 'd'), ('E', 'e'), ('F', 'f'),
   ('G', 'g'), ('H', 'h'), ('I', 'i'), ('J', 'j'), ('K', 'k'), ('L', 'l'),
   ('M', 'm'), ('N', 'n'), ('O', 'o'), ('P', 'p'), ('Q', 'q'), ('R', 'r'),
   ('S', 's'), ('T', 't'), ('U', 'u'), ('V', 'v'), ('W', 'w'), ('X', 'x'),
   ('Y', 'y'), ('Z', 'z'),
   ('\u01CD', '\u01CE'), ('\u00C1', '\u00E1'), ('\u00C4', '\u00E4'),
   ('\u00C0', '\u00E0'), ('\u00C3', '\u00E3'), ('\u0100', '\u0101'),
   ('\u00C9', '\u00E9'), ('\u011A', '\u011B'), ('\u00C8', '\u00E8'),
   ('\u0112', '\u0113'), ('\u00CF', '\u00EF'), ('\u00CD', '\u00ED'),
   ('\u00CE', '\u00EE'), ('\u00CC', '\u00EC'), ('\u00D3', '\u00F3'),
   ('\u00D6', '\u00F6'), ('\u01D1', '\u01D2'), ('\u00D4', '\u00F4'),
   ('\u00D5', '\u00F5'), ('\u00DB', '\u00FB'), ('\u01D3', '\u01D4'),
   ('\u00DA', '\u00FA')]

/-- Lowercase one character (see `lowerTable`). -/
def pyLowerChar (c : Char) : Char :=
  ((lowerTable.find? (·.1 == c)).map (·.2)).getD c

/-- A character matched by `\w` in the regex `\[\w+\]` of
`strip_accents_and_spaces`, restricted to ASCII word characters (Python's
`\w` also matches further Unicode letters; the bracketed editorial
insertions this regex deletes are plain ASCII). -/
def isWordChar (c : Char) : Bool :=
  c.isAlphanum || c == '_'

/-- The scanner behind one pass of Python `re.sub(r'\[\w+\]', '', s)`:
delete every non-overlapping leftmost match of a literal `[`, one or more
word characters, and a literal `]`, with an explicit step budget so that
the recursion is structural. -/
def subBracketedFuel : Nat → List Char → List Char
  | _, [] => []
  | 0, s => s
  | fuel + 1, c :: rest =>
    if c == '[' then
      match rest.dropWhile isWordChar with
      | ']' :: rest' =>
        if rest.takeWhile isWordChar ≠ [] then
          subBracketedFuel fuel rest'
        else
          c :: subBracketedFuel fuel rest
      | _ => c :: subBracketedFuel fuel rest
    else
      c :: subBracketedFuel fuel rest

/-- One pass of Python `re.sub(r'\[\w+\]', '', s)`.  The fuel `s.length`
bounds the scanning steps (each consumes at least one character), so it is
never exhausted. -/
def subBracketed (s : List Char) : List Char :=
  subBracketedFuel s.length s

/-! ## The normalization function `strip_accents_and_spaces`
(src/common.py lines 34-54; src/flexify.py has a byte-identical copy).

The accent table below lists the keys of the Python `accent_dict` literal in
its insertion order.  All 27 keys are distinct: the apparent duplicate `'ã'`
in the source is in fact two distinct keys, precomposed U+00E3 and
`a` followed by the combining tilde U+0303; similarly the `q`-keys are
`q`+U+0303, `q`+U+0303+U+0303, and the two ASCII characters `q~`. -/

def accentTable : List (String × String) :=
  [("\u01CE", "a"), ("a\u0303", "a"), ("\u00E1", "a"), ("\u00E4", "a"),
   ("\u00E0", "a"), ("\u00E3", "a"), ("\u0101", "a"), ("\u00E9", "e"),
   ("\u011B", "e"), ("\u00E8", "e"), ("\u0113", "e"), ("\u00EF", "i"),
   ("\u00ED", "i"), ("\u00EE", "i"), ("\u00EC", "i"), ("\u00F3", "o"),
   ("\u00F6", "o"), ("\u01D2", "o"), ("\u00F4", "o"), ("\u00F5", "o"),
   ("q\u0303", "q"), ("q\u0303\u0303", "q"), ("q~", "que"), ("\u017F", "s"),
   ("\u00FB", "u"), ("\u01D4", "u"), ("\u00FA", "u")]

/-- Step 1 of `strip_accents_and_spaces`: apply each accent-table
replacement in order (`for key, val in accent_dict.items(): s = s.replace(key, val)`). -/
def accentFold (l : List Char) : List Char :=
  accentTable.foldl (fun s kv => pyReplace kv.1.toList kv.2.toList s) l

/-- The punctuation set stripped in the last step (`,.[]'?*’-`;
`\x27` is the straight apostrophe, `’` is U+2019). -/
def punctList : List Char := [',', '.', '[', ']', '\x27', '?', '*', '\u2019', '-']

/-- Python `strip_accents_and_spaces` on character lists: (1) accent-table
replacement, (2) whitespace removal (`''.join(s.split())` removes every
whitespace character), (3) lowercasing, (4) deletion of `\[\w+\]` runs,
(5) punctuation stripping. -/
def stripAccentsAndSpacesL (l : List Char) : List Char :=
  ((((accentFold l).filter (fun c => !pyIsSpace c)).map
      pyLowerChar |> subBracketed).filter (fun c => !punctList.contains c))

/-- Python `strip_accents_and_spaces(s)` (src/common.py lines 34-54). -/
def strip_accents_and_spaces (s : String) : String :=
  ⟨stripAccentsAndSpacesL s.toList⟩

/-! ## Tag comparison -/

/-- Python `tag_eq(tag_in_document, tag_to_check)` (src/common.py lines 6-16;
src/src/tei_tools.py lines 191-205 has an identical definition):
equal exactly, or the document tag ends with `':' + tag_to_check`. -/
def tag_eq (tag_in_document tag_to_check : String) : Bool :=
  tag_in_document == tag_to_check ||
    pyEndsWith tag_in_document (":" ++ tag_to_check)

/-- Python `KNOWN_NAMESPACES` (src/src/tei_tools.py line 208). -/
def KNOWN_NAMESPACES : List String := ["", "http://www.tei-c.org/ns/1.0"]

/-- Python `outline_tag_eq(tag, tagname)` (src/src/tei_tools.py lines 211-218):
equal exactly, or equal to the Clark notation `"{ns}tagname"` for a
namespace in `KNOWN_NAMESPACES`. -/
def outline_tag_eq (tag tagname : String) : Bool :=
  tag == tagname ||
    KNOWN_NAMESPACES.any (fun ns => tag == "\x7b" ++ ns ++ "\x7d" ++ tagname)

/-! ## SAX events and tree flattening

lxml's `sax.saxify` walks an element tree depth-first and fires one
`startElementNS(ns_name, qname, attributes)` per element entry, `characters`
for text, and a matching `endElementNS` per exit.  `ns_name` is a
`(namespace-or-None, localname)` pair, `qname` the possibly prefixed tag
string, and `attributes` a dict keyed by `(namespace-or-None, name)` pairs
(dicts preserve insertion order, so attribute lists model them). -/

/-- An lxml `(namespace, localname)` pair; `none` models Python `None`. -/
abbrev NSName := Option String × String

/-- An attribute dictionary: `(namespace, name)` keys to string values. -/
abbrev SaxAttrs := List ((Option String × String) × String)

/-- Dict lookup `attributes.get(key)` on an attribute dictionary. -/
def attrsGet (a : SaxAttrs) (k : Option String × String) : Option String :=
  (a.find? (fun kv => kv.1 == k)).map (·.2)

/-- An incoming SAX event, as produced by `sax.saxify` over a tree: element
open (with attributes), element close, or character data. -/
inductive SaxEvent
  | start (nsName : NSName) (qname : String) (attrs : SaxAttrs)
  | stop (nsName : NSName) (qname : String)
  | chars (s : String)
deriving DecidableEq, Repr

/-- An event emitted downstream to the tree-building
`ElementTreeContentHandler` sink: the output document is exactly the
well-nested reading of this event list.  (On the Python side a "close" emits
nothing textually — the sink just pops its element stack — but recording it
keeps the output tree structure observable.)  An open's attributes are
`none` when Python passed `attributes=None`. -/
inductive OutEvent
  | opening (nsName : NSName) (qname : String) (attrs : Option SaxAttrs)
  | closing (nsName : NSName) (qname : String)
  | text (s : String)
deriving DecidableEq, Repr

/-- An input XML/pseudo-HTML tree (attribute order preserved). -/
inductive XTree
  | elem (nsName : NSName) (qname : String) (attrs : SaxAttrs)
      (children : List XTree)
  | text (s : String)

mutual

/-- The SAX event stream `sax.saxify` fires for one tree. -/
def xtreeEvents : XTree → List SaxEvent
  | .elem nn q a cs => .start nn q a :: xtreeEventsList cs ++ [.stop nn q]
  | .text s => [.chars s]

/-- The SAX event stream for a forest of sibling trees. -/
def xtreeEventsList : List XTree → List SaxEvent
  | [] => []
  | t :: ts => xtreeEvents t ++ xtreeEventsList ts

end

/-! ## The Paginator: `TEIPager` (src/xml_to_html.py lines 35-162) -/

/-- A raised Python exception aborting a pagination run.  `saxMismatch`
models the `SaxError` that `lxml`'s sink raises when a close does not match
the innermost open element, as re-raised by
`AugmentedContentHandler.endElementNS` with the last-opened tag from the
real tag stack; `located` models `TEIPager.endElementNS` appending the
current page and line to a propagating `SaxError`; `indexError` models an
`IndexError` from `list.pop()` / `list[-1]` on an empty Python list. -/
inductive PagerErr
  | saxMismatch (qname : String) (realTagStack : List String)
  | located (inner : PagerErr) (page line : Nat)
  | indexError
deriving DecidableEq, Repr

/-- The state of a `TEIPager` run.  `tagStack` is `self.tag_stack`
(innermost entry first; Python appends at the end), `realTagStack` is
`self.real_tag_stack` of `AugmentedContentHandler` (innermost first), and
`sinkStack` is the open-element stack of the underlying
`ElementTreeContentHandler` sink, which checks each close against its top.
`out` is the event sequence emitted to the sink, in order. -/
structure PagerState where
  tagStack : List (NSName × String × SaxAttrs)
  realTagStack : List String
  sinkStack : List NSName
  page : Nat
  line : Nat
  out : List OutEvent
  textName : String
deriving Repr

/-- Python `AugmentedContentHandler.startElementNS`: push the qname on the real
tag stack and hand the open to the sink (which pushes its element stack). -/
def augStart (st : PagerState) (nn : NSName) (q : String)
    (attrs : Option SaxAttrs) : PagerState :=
  { st with
    realTagStack := q :: st.realTagStack
    sinkStack := nn :: st.sinkStack
    out := st.out ++ [.opening nn q attrs] }

/-- Python `AugmentedContentHandler.endElementNS`: the sink pops its element stack
and raises `SaxError` if the closed name does not match; on success the
real tag stack is popped too.  The raised error carries the qname and the
real tag stack, from which Python formats its message. -/
def augEnd (st : PagerState) (nn : NSName) (q : String) :
    Except PagerErr PagerState :=
  match st.sinkStack with
  | [] => .error .indexError
  | top :: rest =>
    if top = nn then
      match st.realTagStack with
      | [] => .error .indexError
      | _ :: rrest =>
        .ok { st with
              sinkStack := rest
              realTagStack := rrest
              out := st.out ++ [.closing nn q] }
    else .error (.saxMismatch q st.realTagStack)

/-- Python `AugmentedContentHandler.startElement(name, attributes)`: wrap every
attribute key in the empty namespace and open `(None, name)`. -/
def augStartElement (st : PagerState) (name : String)
    (attrs : Option (List (String × String))) : PagerState :=
  augStart st (none, name) name
    (attrs.map (fun l => l.map (fun kv => ((none, kv.1), kv.2))))

/-- Python `AugmentedContentHandler.endElement(name)`. -/
def augEndElement (st : PagerState) (name : String) :
    Except PagerErr PagerState :=
  augEnd st (none, name) name

/-- Python `TEIPager.startNewPageDiv(page_no, recto_verso_no)`: open the
page-wrapper div. -/
def startNewPageDiv (st : PagerState) (pageNo rectoVersoNo : String) :
    PagerState :=
  augStartElement st "div"
    (some [("class", "printed-text-page " ++ st.textName),
           ("data-n", pageNo),
           ("data-rvn", rectoVersoNo)])

/-- Python `TEIPager.closeAllTags` body: close each tag on `tag_stack` from the
innermost out, without popping `tag_stack` itself. -/
def closeTags : List (NSName × String × SaxAttrs) → PagerState →
    Except PagerErr PagerState
  | [], st => .ok st
  | e :: es, st => do closeTags es (← augEnd st e.1 e.2.1)

/-- Python `TEIPager.closeAllTags`. -/
def closeAllTags (st : PagerState) : Except PagerErr PagerState :=
  closeTags st.tagStack st

/-- Python `TEIPager.reopenAllTags`: re-open every tag on `tag_stack` in original
(outermost-first) order with its original attributes. -/
def reopenAllTags (st : PagerState) : PagerState :=
  st.tagStack.reverse.foldl (fun s e => augStart s e.1 e.2.1 (some e.2.2)) st

/-- Python `TEIPager.handlePageBreak(recto_verso_no)`: reset the line, bump the
page, close all open tags and the current page wrapper, open the next page
wrapper, and re-open all tags. -/
def handlePageBreak (st : PagerState) (rectoVersoNo : String) :
    Except PagerErr PagerState := do
  let st := { st with line := 1, page := st.page + 1 }
  let st ← closeAllTags st
  let st ← augEndElement st "div"
  .ok (reopenAllTags (startNewPageDiv st (toString st.page) rectoVersoNo))

/-- Python `TEIPager.handleColumnBreak(n)` (the src/xml_to_html.py revision, which
does not validate the enclosing tag): `n == '1'` starts a column section,
`n == ''` ends one, anything else moves to the next column. -/
def handleColumnBreak (st : PagerState) (n : Option String) :
    Except PagerErr PagerState :=
  if n = some "1" then
    .ok (augStartElement (augStartElement st "div" none) "div"
          (some [("class", "col-xs-6")]))
  else if n = some "" then do
    let st ← augEndElement st "div"
    augEndElement st "div"
  else do
    let st ← augEndElement st "div"
    .ok (augStartElement st "div" (some [("class", "col-xs-6")]))

/-- Python `TEIPager.startElementNS` / `TEIPager.endElementNS` / `characters`:
one step of the Paginator on one incoming SAX event.  (`characters` is the
inherited sink method, which appends text under the innermost open element
and raises `IndexError` if none is open.) -/
def pagerStep (st : PagerState) : SaxEvent → Except PagerErr PagerState
  | .start nn q attrs =>
    if tag_eq q "pb" then
      if attrsGet attrs (none, "type") ≠ some "pdf" then
        handlePageBreak st ((attrsGet attrs (none, "n")).getD "")
      else .ok st
    else if tag_eq q "cb" then
      handleColumnBreak st (attrsGet attrs (none, "n"))
    else if tag_eq q "body" then
      .ok (startNewPageDiv (augStartElement st "div" none)
            (toString st.page) "0")
    else
      let st := if tag_eq q "br" then { st with line := st.line + 1 } else st
      .ok (augStart
            { st with tagStack := (nn, q, attrs) :: st.tagStack }
            nn q (some attrs))
  | .stop nn q =>
    if tag_eq q "body" then do
      let st ← augEndElement st "div"
      augEndElement st "div"
    else if !tag_eq q "pb" && !tag_eq q "cb" then
      match st.tagStack with
      | [] => .error .indexError
      | _ :: rest =>
        match augEnd { st with tagStack := rest } nn q with
        | .ok st' => .ok st'
        | .error e => .error (.located e st.page st.line)
    else .ok st
  | .chars s =>
    if st.sinkStack.isEmpty then .error .indexError
    else .ok { st with out := st.out ++ [.text s] }

/-- The initial `TEIPager(text_name)` state. -/
def pagerInit (textName : String) : PagerState :=
  ⟨[], [], [], 0, 1, [], textName⟩

/-- Python `paginate(pseudo_html_root, text_name)` at the event level: fold the
Paginator over an event stream (`sax.saxify(pseudo_html_root, handler)`). -/
def pagerRun (textName : String) (evs : List SaxEvent) :
    Except PagerErr PagerState :=
  evs.foldlM pagerStep (pagerInit textName)

/-! ## The second Paginator revision: `TEIPager` in src/src/tei_tools.py

This revision is identical to the one above except that
`handleColumnBreak` first checks that the most recently pushed entry of
`self.tag_stack` is a `div` and raises a `SaxError` naming the current page
and line otherwise (src/src/tei_tools.py lines 137-151).  Its errors are
modelled with the formatted message strings the Python code builds. -/

namespace TeiTools

/-- A raised exception in the tei_tools revision: a `SaxError` carrying its
formatted message, or an `IndexError` from an empty-list `pop()`/`[-1]`.
For a sink mismatch the message text (built by
`AugmentedContentHandler.endElementNS` from the real tag stack) is
abstracted by the `saxMismatch` constructor; the column-break error message
is the exact f-string of `handleColumnBreak`. -/
inductive Err
  | saxMessage (msg : String)
  | saxMismatch (qname : String) (realTagStack : List String)
  | located (inner : Err) (page line : Nat)
  | indexError
deriving DecidableEq, Repr

/-- The state of a tei_tools `TEIPager` run (same fields as `PagerState`). -/
structure St where
  tagStack : List (NSName × String × SaxAttrs)
  realTagStack : List String
  sinkStack : List NSName
  page : Nat
  line : Nat
  out : List OutEvent
  textName : String
deriving Repr

/-- Python `AugmentedContentHandler.startElementNS` (tei_tools revision). -/
def augStart (st : St) (nn : NSName) (q : String)
    (attrs : Option SaxAttrs) : St :=
  { st with
    realTagStack := q :: st.realTagStack
    sinkStack := nn :: st.sinkStack
    out := st.out ++ [.opening nn q attrs] }

/-- Python `AugmentedContentHandler.endElementNS` (tei_tools revision). -/
def augEnd (st : St) (nn : NSName) (q : String) : Except Err St :=
  match st.sinkStack with
  | [] => .error .indexError
  | top :: rest =>
    if top = nn then
      match st.realTagStack with
      | [] => .error .indexError
      | _ :: rrest =>
        .ok { st with
              sinkStack := rest
              realTagStack := rrest
              out := st.out ++ [.closing nn q] }
    else .error (.saxMismatch q st.realTagStack)

/-- Python `AugmentedContentHandler.startElement` (tei_tools revision). -/
def augStartElement (st : St) (name : String)
    (attrs : Option (List (String × String))) : St :=
  augStart st (none, name) name
    (attrs.map (fun l => l.map (fun kv => ((none, kv.1), kv.2))))

/-- Python `AugmentedContentHandler.endElement` (tei_tools revision). -/
def augEndElement (st : St) (name : String) : Except Err St :=
  augEnd st (none, name) name

/-- Python `TEIPager.startNewPageDiv` (tei_tools revision). -/
def startNewPageDiv (st : St) (pageNo rectoVersoNo : String) : St :=
  augStartElement st "div"
    (some [("class", "printed-text-page " ++ st.textName),
           ("data-n", pageNo),
           ("data-rvn", rectoVersoNo)])

/-- Python `TEIPager.closeAllTags` body (tei_tools revision). -/
def closeTags : List (NSName × String × SaxAttrs) → St → Except Err St
  | [], st => .ok st
  | e :: es, st => do closeTags es (← augEnd st e.1 e.2.1)

/-- Python `TEIPager.closeAllTags` (tei_tools revision). -/
def closeAllTags (st : St) : Except Err St :=
  closeTags st.tagStack st

/-- Python `TEIPager.reopenAllTags` (tei_tools revision). -/
def reopenAllTags (st : St) : St :=
  st.tagStack.reverse.foldl (fun s e => augStart s e.1 e.2.1 (some e.2.2)) st

/-- Python `TEIPager.handlePageBreak` (tei_tools revision). -/
def handlePageBreak (st : St) (rectoVersoNo : String) : Except Err St := do
  let st := { st with line := 1, page := st.page + 1 }
  let st ← closeAllTags st
  let st ← augEndElement st "div"
  .ok (reopenAllTags (startNewPageDiv st (toString st.page) rectoVersoNo))

/-- The tei_tools `TEIPager.handleColumnBreak(n)` (lines 137-151): first
read `self.tag_stack[-1][1]` (an `IndexError` if the tag stack is empty)
and raise a `SaxError` with the page/line-bearing message unless it is
exactly `"div"`; then dispatch on `n` as in the other revision. -/
def handleColumnBreak (st : St) (n : Option String) : Except Err St := do
  match st.tagStack with
  | [] => .error .indexError
  | lastEntry :: _ =>
    if ¬ (lastEntry.2.1 = "div") then
      .error (.saxMessage
        ("Column break (<cb.../>) must be inside a <div> tag: page "
          ++ toString st.page ++ ", line " ++ toString st.line))
    else if n = some "1" then
      .ok (augStartElement (augStartElement st "div" none) "div"
            (some [("class", "col-xs-6")]))
    else if n = some "" then do
      let st ← augEndElement st "div"
      augEndElement st "div"
    else do
      let st ← augEndElement st "div"
      .ok (augStartElement st "div" (some [("class", "col-xs-6")]))

/-- One step of the tei_tools `TEIPager` on one incoming SAX event. -/
def step (st : St) : SaxEvent → Except Err St
  | .start nn q attrs =>
    if tag_eq q "pb" then
      if attrsGet attrs (none, "type") ≠ some "pdf" then
        handlePageBreak st ((attrsGet attrs (none, "n")).getD "")
      else .ok st
    else if tag_eq q "cb" then
      handleColumnBreak st (attrsGet attrs (none, "n"))
    else if tag_eq q "body" then
      .ok (startNewPageDiv (augStartElement st "div" none)
            (toString st.page) "0")
    else
      let st := if tag_eq q "br" then { st with line := st.line + 1 } else st
      .ok (augStart
            { st with tagStack := (nn, q, attrs) :: st.tagStack }
            nn q (some attrs))
  | .stop nn q =>
    if tag_eq q "body" then do
      let st ← augEndElement st "div"
      augEndElement st "div"
    else if !tag_eq q "pb" && !tag_eq q "cb" then
      match st.tagStack with
      | [] => .error .indexError
      | _ :: rest =>
        match augEnd { st with tagStack := rest } nn q with
        | .ok st' => .ok st'
        | .error e => .error (.located e st.page st.line)
    else .ok st
  | .chars s =>
    if st.sinkStack.isEmpty then .error .indexError
    else .ok { st with out := st.out ++ [.text s] }

end TeiTools

/-! ## The gloss dictionary: `FLExDict` (src/flexify.py lines 119-177) -/

/-- Python `FLExWord` namedtuple
(`FLExWord = namedtuple('FLExWord', ['name', 'lex_glosses', 'morphs', 'lit_en_gloss'])`). -/
structure FLExWord where
  name : String
  lex_glosses : List String
  morphs : List String
  lit_en_gloss : String
deriving DecidableEq, Repr

/-- One section partition of the dictionary: normalized word → record. -/
abbrev WordMap := List (String × FLExWord)

/-- The dictionary `FLExDict.dct`: section title → partition, in insertion
order, with unique keys (it is a Python dict). -/
abbrev FDict := List (String × WordMap)

/-- Python `d.get(k)` on an ordered dict modelled as an association list. -/
def dictGet {α : Type} (m : List (String × α)) (k : String) : Option α :=
  (m.find? (fun kv => kv.1 == k)).map (·.2)

/-- Python `FLExDict.lookup(section, word)` (src/flexify.py lines 158-177):
normalize the word; if `section` is exactly a key of the dictionary, answer
from that partition only; otherwise scan all partitions for keys that are a
string-prefix of `section`, keeping the longest (strictly longer wins, so
the initial empty best match is never replaced by an empty key), and answer
from the winning partition (the empty initial partition if none wins). -/
def FLExDict.lookup (dct : FDict) (sect word : String) : Option FLExWord :=
  let word := strip_accents_and_spaces word
  match dct.find? (fun kv => kv.1 == sect) with
  | some kv => dictGet kv.2 word
  | none =>
    let best := dct.foldl
      (fun (acc : String × WordMap) kv =>
        if pyStartsWith sect kv.1 ∧ kv.1.length > acc.1.length then
          (kv.1, kv.2)
        else acc)
      ("", [])
    dictGet best.2 word

/-! ## The gloss annotator: `FLExParser` (src/flexify.py lines 21-111)

`FLExParser` extends lxml's `ElementTreeContentHandler` directly.  The
class-level counters `FLExParser.total` / `FLExParser.missed` (lines 30-31)
accumulate across instances within one Python process; the run function
below therefore takes their incoming values as parameters (`0, 0` in a
fresh process). -/

/-- A raised exception during a `FLExParser` run: a sink `SaxError` on a
mismatched close, or an `IndexError` from the sink's element stack. -/
inductive FlexErr
  | saxMismatch (qname : String)
  | indexError
deriving DecidableEq, Repr

/-- The state of a `FLExParser` run: the sink's open-element stack, the
`in_mark_tag` flag, the current `word` and `section`, `tag_count`, the
(class-level) counters `total` and `missed`, and the emitted events. -/
structure FlexState where
  sinkStack : List NSName
  inMark : Bool
  word : String
  sect : String
  tagCount : Nat
  total : Nat
  missed : Nat
  out : List OutEvent
deriving Repr

/-- The sink's `startElementNS`: push and emit. -/
def flexEmitOpen (st : FlexState) (nn : NSName) (q : String)
    (attrs : Option SaxAttrs) : FlexState :=
  { st with
    sinkStack := nn :: st.sinkStack
    out := st.out ++ [.opening nn q attrs] }

/-- The sink's `endElementNS`: pop, checking that the closed name matches
the innermost open element (else `SaxError`; `IndexError` if none open). -/
def flexEmitClose (st : FlexState) (nn : NSName) (q : String) :
    Except FlexErr FlexState :=
  match st.sinkStack with
  | [] => .error .indexError
  | top :: rest =>
    if top = nn then
      .ok { st with sinkStack := rest, out := st.out ++ [.closing nn q] }
    else .error (.saxMismatch q)

/-- Python `FLExParser.startElement(tag, attributes)`. -/
def flexStartElement (st : FlexState) (tag : String)
    (attrs : Option (List (String × String))) : FlexState :=
  flexEmitOpen st (none, tag) tag
    (attrs.map (fun l => l.map (fun kv => ((none, kv.1), kv.2))))

/-- Python `FLExParser.endElement(tag)`. -/
def flexEndElement (st : FlexState) (tag : String) :
    Except FlexErr FlexState :=
  flexEmitClose st (none, tag) tag

/-- The sink's `characters(data)`: text goes under the innermost open
element (an `IndexError` if none is open). -/
def flexBaseChars (st : FlexState) (s : String) : Except FlexErr FlexState :=
  if st.sinkStack.isEmpty then .error .indexError
  else .ok { st with out := st.out ++ [.text s] }

/-- Python `FLExParser.createTableRow(entries)`: a `<tr>` of `<td>`s. -/
def createTableRow (st : FlexState) (entries : List String) :
    Except FlexErr FlexState := do
  let st := flexStartElement st "tr" none
  let st ← entries.foldlM
    (fun st e => do
      let st := flexStartElement st "td" none
      let st ← flexBaseChars st e
      flexEndElement st "td")
    st
  flexEndElement st "tr"

/-- Python `FLExParser.createFLExWord(flex_word)`: nothing for a missing
record; otherwise a table with a caption (the headword), the morph and
gloss rows when at least one morph and one gloss are non-empty (Python
`any` on a list of strings tests for a truthy, i.e. non-empty, element),
and a final `<td colspan=...>` with the quoted literal English gloss.
The two conditional rows are factored into `createGlossRows`. -/
def createGlossRows (st : FlexState) (w : FLExWord) :
    Except FlexErr FlexState :=
  if w.morphs.any (· != "") && w.lex_glosses.any (· != "") then do
    let st ← createTableRow st w.morphs
    createTableRow st w.lex_glosses
  else .ok st

/-- Python `FLExParser.createFLExWord(flex_word)` continued: the table with
caption, conditional rows (`createGlossRows`), and the final spanning
cell. -/
def createFLExWord (st : FlexState) : Option FLExWord →
    Except FlexErr FlexState
  | none => .ok st
  | some w => do
    let st := flexStartElement st "table" none
    let st := flexStartElement st "caption" none
    let st ← flexBaseChars st w.name
    let st ← flexEndElement st "caption"
    let st ← createGlossRows st w
    let st := flexStartElement st "td"
      (some [("colspan", toString w.morphs.length)])
    let st ← flexBaseChars st ("\x27" ++ w.lit_en_gloss ++ "\x27")
    let st ← flexEndElement st "td"
    flexEndElement st "table"

/-- One step of `FLExParser` on one incoming SAX event
(`startElementNS` / `endElementNS` / `characters`, lines 57-111). -/
def flexStep (d : FDict) (st : FlexState) : SaxEvent →
    Except FlexErr FlexState
  | .start nn q attrs =>
    if q == "mark" then
      let st := { st with tagCount := st.tagCount + 1 }
      let st := flexStartElement st "span"
        (some [("class", "popover-markup inline")])
      let st := { st with inMark := true }
      .ok (flexEmitOpen st nn q (some attrs))
    else if q == "div" then
      let st :=
        match attrsGet attrs (none, "id") with
        | some newSection =>
          if newSection ≠ "" then
            { st with sect := pyReplaceStr newSection ".0" "." }
          else st
        | none => st
      .ok (flexEmitOpen st nn q (some attrs))
    else
      .ok (flexEmitOpen st nn q (some attrs))
  | .stop nn q => do
    let st ← flexEmitClose st nn q
    if q == "mark" then
      if st.word ≠ "" then do
        let flexWord := FLExDict.lookup d st.sect st.word
        let st := { st with total := st.total + 1 }
        let st := if flexWord.isNone then { st with missed := st.missed + 1 }
                  else st
        let st := flexStartElement st "span"
          (some [("class", "content hide inline")])
        let st ← createFLExWord st flexWord
        let st ← flexEndElement st "span"
        let st ← flexEndElement st "span"
        .ok { st with inMark := false, word := "" }
      else do
        let st ← flexEndElement st "span"
        .ok { st with inMark := false, word := "" }
    else .ok st
  | .chars s => do
    let st := if st.inMark then { st with word := st.word ++ s } else st
    flexBaseChars st s

/-- A `flexify(html_root, flex_dict)` pass at the event level, starting
from class-counter values `total0` / `missed0`. -/
def flexRun (d : FDict) (total0 missed0 : Nat) (evs : List SaxEvent) :
    Except FlexErr FlexState :=
  evs.foldlM (flexStep d) ⟨[], false, "", "", 0, total0, missed0, []⟩

/-! ## Observables and specification-side functions used by the claims -/

/-- An emitted open event is a page wrapper iff it carries the page-wrapper
class attribute generated by `startNewPageDiv`. -/
def isWrapperOpen (textName : String) : OutEvent → Bool
  | .opening _ _ (some a) =>
    attrsGet a (none, "class") == some ("printed-text-page " ++ textName)
  | _ => false

/-- The `data-n` (page number) attributes of the page wrappers in an output
event sequence, in emission order. -/
def wrapperDataN (textName : String) (out : List OutEvent) :
    List (Option String) :=
  (out.filter (isWrapperOpen textName)).map
    (fun e =>
      match e with
      | .opening _ _ (some a) => attrsGet a (none, "data-n")
      | _ => none)

/-- An incoming event is a content-type page-break marker: a `pb` open
whose `type` attribute is absent or differs from the PDF sentinel. -/
def isContentPb : SaxEvent → Bool
  | .start _ q a =>
    tag_eq q "pb" && !(attrsGet a (none, "type") == some "pdf")
  | _ => false

/-- The number of content-type page-break markers in an event stream. -/
def countContentPb (evs : List SaxEvent) : Nat :=
  (evs.filter isContentPb).length

/-- An output event is a leftover page-break or column-break marker. -/
def isMarkerOut : OutEvent → Bool
  | .opening _ q _ => tag_eq q "pb" || tag_eq q "cb"
  | .closing _ q => tag_eq q "pb" || tag_eq q "cb"
  | .text _ => false

mutual

/-- No element of the tree matches the `body` literal. -/
def noBodyTree : XTree → Bool
  | .elem _ q _ cs => !tag_eq q "body" && noBodyForest cs
  | .text _ => true

/-- No element of the forest matches the `body` literal. -/
def noBodyForest : List XTree → Bool
  | [] => true
  | t :: ts => noBodyTree t && noBodyForest ts

end

mutual

/-- No element of the tree carries the generated page-wrapper class
attribute (so input elements cannot be mistaken for page wrappers). -/
def noWrapperTree (textName : String) : XTree → Bool
  | .elem _ _ a cs =>
    !(attrsGet a (none, "class") == some ("printed-text-page " ++ textName))
      && noWrapperForest textName cs
  | .text _ => true

/-- No element of the forest carries the page-wrapper class attribute. -/
def noWrapperForest (textName : String) : List XTree → Bool
  | [] => true
  | t :: ts => noWrapperTree textName t && noWrapperForest textName ts

end

/-- Specification-side extraction of the marked words a gloss pass
processes: walking the event stream with the annotator's section/word
tracking rules, produce one Boolean per marked-word span that closes with
non-empty accumulated text — `true` iff the dictionary lookup for it
succeeds.  `FLExParser.total` counts these entries and `FLExParser.missed`
counts the `false` ones. -/
def glossHits (d : FDict) : List SaxEvent → Bool → String → String →
    List Bool
  | [], _, _, _ => []
  | .start _ q attrs :: rest, inMark, word, sect =>
    if q == "mark" then glossHits d rest true word sect
    else if q == "div" then
      match attrsGet attrs (none, "id") with
      | some newSection =>
        if newSection ≠ "" then
          glossHits d rest inMark word (pyReplaceStr newSection ".0" ".")
        else glossHits d rest inMark word sect
      | none => glossHits d rest inMark word sect
    else glossHits d rest inMark word sect
  | .chars s :: rest, inMark, word, sect =>
    glossHits d rest inMark (if inMark then word ++ s else word) sect
  | .stop _ q :: rest, inMark, word, sect =>
    if q == "mark" then
      if word ≠ "" then
        (FLExDict.lookup d sect word).isSome ::
          glossHits d rest false "" sect
      else glossHits d rest false "" sect
    else glossHits d rest inMark word sect

/-- Step 1 of the normalization on `String`s (used to state what a second
`strip_accents_and_spaces` application amounts to). -/
def accentFoldStr (s : String) : String :=
  ⟨accentFold s.toList⟩

/-- A sample annotation record builder for concrete test documents. -/
def sampleWord (n : String) : FLExWord :=
  ⟨n, ["gloss"], ["morph"], "lit"⟩

/-- A concrete gloss dictionary whose single partition is keyed by the
empty string (used to probe the prefix-fallback edge case). -/
def emptyKeyDict : FDict := [("", [("w", sampleWord "w")])]

/-- A concrete two-partition dictionary with keys `"2"` and `"2.3"`,
where `"w"` lives only in partition `"2"` and `"v"` only in `"2.3"`. -/
def twoPartDict : FDict :=
  [("2", [("w", sampleWord "w")]), ("2.3", [("v", sampleWord "v")])]

/-- A concrete dictionary for the missed-word-counting scenario: seven
words present in the single (empty-section) partition. -/
def tenWordDict : FDict :=
  [("", [("w1", sampleWord "w1"), ("w2", sampleWord "w2"),
         ("w3", sampleWord "w3"), ("w4", sampleWord "w4"),
         ("w5", sampleWord "w5"), ("w6", sampleWord "w6"),
         ("w7", sampleWord "w7")])]

/-- One marked-word span containing the given text. -/
def markSpan (w : String) : List SaxEvent :=
  [.start (none, "mark") "mark" [], .chars w, .stop (none, "mark") "mark"]

/-- A concrete document with ten marked words of which three (`m1`-`m3`)
have no entry in `tenWordDict`. -/
def tenWordDoc : List SaxEvent :=
  .start (none, "html") "html" [] ::
    (markSpan "w1" ++ markSpan "w2" ++ markSpan "w3" ++ markSpan "m1" ++
     markSpan "w4" ++ markSpan "m2" ++ markSpan "w5" ++ markSpan "w6" ++
     markSpan "m3" ++ markSpan "w7") ++
    [.stop (none, "html") "html"]

/-- The spec's end-to-end example tree
`<body><p>A<pb n="1"/>B</p></body>`. -/
def demoBodyChildren : List XTree :=
  [XTree.elem (none, "p") "p" []
    [XTree.text "A",
     XTree.elem (none, "pb") "pb" [((none, "n"), "1")] [],
     XTree.text "B"]]

/-- A character that every normalization step leaves alone: not
whitespace, fixed by lowercasing, and not in the punctuation set (which
contains both brackets).  Every character of a normalized string is good.
-/
def goodChar (c : Char) : Bool :=
  !pyIsSpace c && (pyLowerChar c == c) && !punctList.contains c

/-! ## Helper lemmas -/

/-- Two distinct literal tags cannot both `tag_eq`-match one document tag,
provided neither colon-extended form is a suffix of the other. -/
theorem tag_eq_excl (q a b : String) (hab : a ≠ b) (hcb : ':' ∉ b.toList)
    (h1 : ¬ ((':' :: b.toList) <:+ (':' :: a.toList)))
    (h2 : ¬ ((':' :: a.toList) <:+ (':' :: b.toList)))
    (ha : tag_eq q a = true) : tag_eq q b = false := by
  rw [Bool.eq_false_iff]
  intro hb
  have hca : (":" ++ a).toList = ':' :: a.toList := rfl
  have hcb2 : (":" ++ b).toList = ':' :: b.toList := rfl
  simp only [tag_eq, pyEndsWith, Bool.or_eq_true, beq_iff_eq,
    List.isSuffixOf_iff_suffix, hca, hcb2] at ha hb
  rcases ha with rfl | hsufa
  · rcases hb with rfl | hsufb
    · exact hab rfl
    · exact h1 (hsufb.trans (List.suffix_cons _ _))
  · rcases hb with rfl | hsufb
    · exact hcb (hsufa.subset (List.mem_cons_self _ _))
    · rcases List.suffix_or_suffix_of_suffix hsufa hsufb with h | h
      · exact h2 h
      · exact h1 h

/-- A document tag matching the column-break literal does not match the
page-break literal. -/
theorem tag_eq_cb_not_pb {q : String} (h : tag_eq q "cb" = true) :
    tag_eq q "pb" = false :=
  tag_eq_excl q "cb" "pb" (by decide) (by decide) (by decide) (by decide) h

/-- A document tag matching the body literal matches neither marker
literal. -/
theorem tag_eq_body_not_marker {q : String} (h : tag_eq q "body" = true) :
    tag_eq q "pb" = false ∧ tag_eq q "cb" = false :=
  ⟨tag_eq_excl q "body" "pb" (by decide) (by decide) (by decide) (by decide) h,
   tag_eq_excl q "body" "cb" (by decide) (by decide) (by decide) (by decide) h⟩

/-! ## Claim C6: a PDF-typed page-break marker is a silent no-op -/

/-- C6: for every page-break marker whose `type` attribute equals the PDF
sentinel, the Paginator emits nothing and leaves its entire state — page,
line, open-tag stack, and all emitted output — unchanged: the step returns
the input state itself. -/
theorem c6_pdf_page_break_noop (st : PagerState) (nn : NSName) (q : String)
    (attrs : SaxAttrs)
    (hq : tag_eq q "pb" = true)
    (hpdf : attrsGet attrs (none, "type") = some "pdf") :
    pagerStep st (.start nn q attrs) = .ok st := by
  simp [pagerStep, hq, hpdf]

/-- Witness for C6 at a concrete state and marker. -/
theorem c6_pdf_page_break_noop_witness :
    pagerStep
      { tagStack := [((none, "p"), "p", [])],
        realTagStack := ["p", "div", "div"],
        sinkStack := [(none, "p"), (none, "div"), (none, "div")],
        page := 2, line := 7, out := [], textName := "t" }
      (.start (none, "pb") "pb" [((none, "type"), "pdf"), ((none, "n"), "4r")]) =
    .ok
      { tagStack := [((none, "p"), "p", [])],
        realTagStack := ["p", "div", "div"],
        sinkStack := [(none, "p"), (none, "div"), (none, "div")],
        page := 2, line := 7, out := [], textName := "t" } :=
  c6_pdf_page_break_noop _ _ _ _ (by decide) (by decide)

/-! ## Claim C9: `tag_eq` and the Clark-notation allow-list -/

/-- Counterexample to C9: the Clark-notation TEI-namespaced `div`, which
the claim says `tagMatches` accepts, is rejected by `tag_eq`
(src/common.py); the Clark-notation allow-list lives only in the separate
`outline_tag_eq` helper of src/src/tei_tools.py. -/
theorem c9_counterexample :
    tag_eq "\x7bhttp://www.tei-c.org/ns/1.0\x7ddiv" "div" = false ∧
    outline_tag_eq "\x7bhttp://www.tei-c.org/ns/1.0\x7ddiv" "div" = true := by
  constructor
  · decide
  · decide

/-- C9 amended: `tag_eq(t, u)` returns true iff `t` equals `u` exactly or
`t` ends with a colon immediately followed by `u` (that is,
`t = p + ":" + u` for some, possibly empty, `p`).  No Clark-notation
allow-list is consulted; that behaviour belongs to the separate
`outline_tag_eq` helper, which in turn lacks the colon-suffix rule. -/
theorem c9_amended_tag_eq_spec (t u : String) :
    tag_eq t u = true ↔
      (t = u ∨ ∃ p : List Char, t.toList = p ++ ':' :: u.toList) := by
  have hcu : (":" ++ u).toList = ':' :: u.toList := rfl
  simp only [tag_eq, pyEndsWith, Bool.or_eq_true, beq_iff_eq,
    List.isSuffixOf_iff_suffix, hcu]
  apply or_congr Iff.rfl
  constructor
  · rintro ⟨p, hp⟩
    exact ⟨p, hp.symm⟩
  · rintro ⟨p, hp⟩
    exact ⟨p, hp.symm⟩

/-! ## Claim C7: column break outside a div (tei_tools revision) -/

/-- C7: in the tei_tools Paginator, a column-break marker whose `n`
attribute is neither `"1"` nor `""`, arriving when the most recently
pushed entry of the open-tag stack is not a `div`, raises a fatal
`SaxError` whose message says a column break must be inside a `<div>` tag
and reports the current page and line. -/
theorem c7_column_break_outside_div (st : TeiTools.St) (nn : NSName)
    (q : String) (attrs : SaxAttrs)
    (entry : NSName × String × SaxAttrs)
    (rest : List (NSName × String × SaxAttrs))
    (hq : tag_eq q "cb" = true)
    (hstack : st.tagStack = entry :: rest)
    (hdiv : entry.2.1 ≠ "div")
    (hn1 : attrsGet attrs (none, "n") ≠ some "1")
    (hn2 : attrsGet attrs (none, "n") ≠ some "") :
    TeiTools.step st (.start nn q attrs) =
      .error (.saxMessage
        ("Column break (<cb.../>) must be inside a <div> tag: page "
          ++ toString st.page ++ ", line " ++ toString st.line)) := by
  have hpb := tag_eq_cb_not_pb hq
  simp [TeiTools.step, hpb, hq, TeiTools.handleColumnBreak, hstack, hdiv]

/-- Witness for C7 at a concrete state and marker. -/
theorem c7_column_break_outside_div_witness :
    TeiTools.step
      { tagStack := [((none, "p"), "p", []), ((none, "div"), "div", [])],
        realTagStack := ["p", "div", "div", "div"],
        sinkStack := [(none, "p"), (none, "div"), (none, "div"), (none, "div")],
        page := 3, line := 9, out := [], textName := "t" }
      (.start (none, "cb") "cb" [((none, "n"), "2")]) =
    .error (.saxMessage
      "Column break (<cb.../>) must be inside a <div> tag: page 3, line 9") :=
  by
    have h := c7_column_break_outside_div
      { tagStack := [((none, "p"), "p", []), ((none, "div"), "div", [])],
        realTagStack := ["p", "div", "div", "div"],
        sinkStack := [(none, "p"), (none, "div"), (none, "div"), (none, "div")],
        page := 3, line := 9, out := [], textName := "t" }
      (none, "cb") "cb" [((none, "n"), "2")]
      ((none, "p"), "p", []) [((none, "div"), "div", [])]
      (by decide) rfl (by decide) (by decide) (by decide)
    simpa using h

/-- Binding a successful `Except` computation just applies the
continuation. -/
theorem except_ok_bind {e a b : Type} (x : a) (f : a → Except e b) :
    (Except.ok x : Except e a) >>= f = f x := rfl

/-- Characterization of `closeTags` when the sink stack starts with exactly
the tags being closed: each close succeeds, emitting the closes
innermost-first and popping the sink and real stacks, while `tag_stack`
itself (and every other field) is untouched. -/
theorem closeTags_ok : ∀ (l : List (NSName × String × SaxAttrs))
    (st : PagerState) (rest : List NSName) (rrest : List String),
    st.sinkStack = l.map (·.1) ++ rest →
    st.realTagStack = l.map (·.2.1) ++ rrest →
    closeTags l st = .ok { st with
      sinkStack := rest, realTagStack := rrest,
      out := st.out ++ l.map (fun e => .closing e.1 e.2.1) }
  | [], st, rest, rrest, hs, hr => by
    simp only [List.map_nil, List.nil_append] at hs hr
    simp [closeTags, ← hs, ← hr]
  | e :: es, st, rest, rrest, hs, hr => by
    simp only [List.map_cons, List.cons_append] at hs hr
    have h1 : augEnd st e.1 e.2.1 = .ok { st with
        sinkStack := es.map (·.1) ++ rest,
        realTagStack := es.map (·.2.1) ++ rrest,
        out := st.out ++ [.closing e.1 e.2.1] } := by
      simp [augEnd, hs, hr]
    have h2 := closeTags_ok es { st with
        sinkStack := es.map (·.1) ++ rest,
        realTagStack := es.map (·.2.1) ++ rrest,
        out := st.out ++ [.closing e.1 e.2.1] } rest rrest (by simp) (by simp)
    rw [closeTags, h1]
    show closeTags es _ = _
    rw [h2]
    simp

/-- Characterization of a fold of `augStart`s (as in `reopenAllTags`):
pure pushes and emissions, in order. -/
theorem augStart_foldl : ∀ (l : List (NSName × String × SaxAttrs))
    (st : PagerState),
    l.foldl (fun s e => augStart s e.1 e.2.1 (some e.2.2)) st =
    { st with
      realTagStack := l.reverse.map (·.2.1) ++ st.realTagStack,
      sinkStack := l.reverse.map (·.1) ++ st.sinkStack,
      out := st.out ++ l.map (fun e => .opening e.1 e.2.1 (some e.2.2)) }
  | [], st => by simp
  | e :: es, st => by
    rw [List.foldl_cons, augStart_foldl es]
    simp [augStart]

/-! ## Claim C1: page-break re-nesting -/

/-- C1: a page-break marker whose `type` attribute is not the PDF sentinel,
arriving while the open-tag stack holds `k` tags (with the sink and real
stacks consistently holding those tags above the current page-wrapper div),
makes the Paginator emit: a close for each stacked tag in reverse
(innermost-first) order without removing them from the stack (the
`tagStack` field is unchanged), a close of the current page-wrapper div, an
open of a new page-wrapper div carrying the incremented page number and the
marker's recto/verso `n` value (empty string when absent), and then an open
for each stacked tag in original (outermost-first) order with its original
attributes — so exactly those `k` elements are re-opened, in the same
order, with identical attributes, immediately inside the new page
wrapper. -/
theorem c1_page_break_renesting (st : PagerState) (nn : NSName) (q : String)
    (attrs : SaxAttrs) (sinkRest : List NSName) (realRest : List String)
    (hq : tag_eq q "pb" = true)
    (htype : attrsGet attrs (none, "type") ≠ some "pdf")
    (hsink : st.sinkStack = st.tagStack.map (·.1) ++ (none, "div") :: sinkRest)
    (hreal : st.realTagStack = st.tagStack.map (·.2.1) ++ "div" :: realRest) :
    pagerStep st (.start nn q attrs) = .ok { st with
      page := st.page + 1
      line := 1
      out := st.out
        ++ st.tagStack.map (fun e => .closing e.1 e.2.1)
        ++ [.closing (none, "div") "div"]
        ++ [.opening (none, "div") "div"
              (some [((none, "class"), "printed-text-page " ++ st.textName),
                     ((none, "data-n"), toString (st.page + 1)),
                     ((none, "data-rvn"), (attrsGet attrs (none, "n")).getD "")])]
        ++ st.tagStack.reverse.map
             (fun e => .opening e.1 e.2.1 (some e.2.2)) } := by
  have hstep : pagerStep st (.start nn q attrs) =
      handlePageBreak st ((attrsGet attrs (none, "n")).getD "") := by
    simp [pagerStep, hq, htype]
  rw [hstep]
  rw [handlePageBreak]
  have hclose := closeTags_ok st.tagStack
    { st with line := 1, page := st.page + 1 }
    ((none, "div") :: sinkRest) ("div" :: realRest)
    (by simpa using hsink) (by simpa using hreal)
  have hca : closeAllTags { st with line := 1, page := st.page + 1 } =
      closeTags st.tagStack { st with line := 1, page := st.page + 1 } := rfl
  rw [hca, hclose, except_ok_bind]
  have hend : augEndElement
      { st with
        line := 1, page := st.page + 1,
        sinkStack := (none, "div") :: sinkRest,
        realTagStack := "div" :: realRest,
        out := st.out ++ st.tagStack.map (fun e => .closing e.1 e.2.1) } "div" =
      .ok { st with
            line := 1, page := st.page + 1,
            sinkStack := sinkRest, realTagStack := realRest,
            out := (st.out ++ st.tagStack.map (fun e => .closing e.1 e.2.1))
              ++ [.closing (none, "div") "div"] } := by
    simp [augEndElement, augEnd]
  rw [hend, except_ok_bind]
  rw [startNewPageDiv, augStartElement, reopenAllTags, augStart_foldl]
  simp [augStart, hsink, hreal]

/-- Witness for C1: a page break inside `<p><em>` (two stacked tags) closes
`em` then `p`, closes the page wrapper, opens the next page wrapper with
page number 1 and the marker's `n` value, and re-opens `p` then `em` with
their original attributes, leaving the tag stack itself unchanged. -/
theorem c1_page_break_renesting_witness :
    pagerStep
      { tagStack := [((none, "em"), "em", [((none, "x"), "1")]),
                     ((none, "p"), "p", [])],
        realTagStack := ["em", "p", "div", "div"],
        sinkStack := [(none, "em"), (none, "p"), (none, "div"), (none, "div")],
        page := 0, line := 5, out := [], textName := "demo" }
      (.start (none, "pb") "pb" [((none, "n"), "3v")]) =
    .ok
      { tagStack := [((none, "em"), "em", [((none, "x"), "1")]),
                     ((none, "p"), "p", [])],
        realTagStack := ["em", "p", "div", "div"],
        sinkStack := [(none, "em"), (none, "p"), (none, "div"), (none, "div")],
        page := 1, line := 1,
        out := [.closing (none, "em") "em",
                .closing (none, "p") "p",
                .closing (none, "div") "div",
                .opening (none, "div") "div"
                  (some [((none, "class"), "printed-text-page demo"),
                         ((none, "data-n"), "1"),
                         ((none, "data-rvn"), "3v")]),
                .opening (none, "p") "p" (some []),
                .opening (none, "em") "em" (some [((none, "x"), "1")])],
        textName := "demo" } := by
  have h := c1_page_break_renesting
    { tagStack := [((none, "em"), "em", [((none, "x"), "1")]),
                   ((none, "p"), "p", [])],
      realTagStack := ["em", "p", "div", "div"],
      sinkStack := [(none, "em"), (none, "p"), (none, "div"), (none, "div")],
      page := 0, line := 5, out := [], textName := "demo" }
    (none, "pb") "pb" [((none, "n"), "3v")] [(none, "div")] ["div"]
    (by decide) (by decide) (by rfl) (by rfl)
  simpa using h

/-! ## Claim C10: empty marked-word spans -/

/-- C10: when a marked-word span closes with an empty accumulated word,
the Gloss Annotator still closes the span and its enclosing wrapper span,
but performs no dictionary lookup (the result does not depend on the
dictionary and nothing is emitted beyond the two closes — in particular no
hidden annotation container), and leaves `total` and `missed` unchanged. -/
theorem c10_empty_word_span (d : FDict) (st : FlexState)
    (nn : NSName) (rest : List NSName)
    (hword : st.word = "")
    (hsink : st.sinkStack = nn :: (none, "span") :: rest) :
    flexStep d st (.stop nn "mark") = .ok
      { st with
        sinkStack := rest
        inMark := false
        word := ""
        out := st.out ++ [.closing nn "mark",
                          .closing (none, "span") "span"] } := by
  simp [flexStep, flexEmitClose, flexEndElement, hsink, hword, except_ok_bind]

/-- Witness for C10 at a concrete state: counters stay `(5, 2)` and only
the two closes are emitted. -/
theorem c10_empty_word_span_witness :
    flexStep tenWordDict
      { sinkStack := [(none, "mark"), (none, "span"), (none, "html")],
        inMark := true, word := "", sect := "1.2", tagCount := 3,
        total := 5, missed := 2, out := [] }
      (.stop (none, "mark") "mark") =
    .ok
      { sinkStack := [(none, "html")],
        inMark := false, word := "", sect := "1.2", tagCount := 3,
        total := 5, missed := 2,
        out := [.closing (none, "mark") "mark",
                .closing (none, "span") "span"] } := by
  have h := c10_empty_word_span tenWordDict
    { sinkStack := [(none, "mark"), (none, "span"), (none, "html")],
      inMark := true, word := "", sect := "1.2", tagCount := 3,
      total := 5, missed := 2, out := [] }
    (none, "mark") [(none, "html")] rfl rfl
  simpa using h

/-! ## Claim C4: gloss lookup precedence -/

/-- The best-prefix fold of `FLExDict.lookup` never moves off an
accumulator at least as long as every qualifying key. -/
theorem lookupFold_stable (sect : String) :
    ∀ (l : FDict) (acc : String × WordMap),
    (∀ p ∈ l, pyStartsWith sect p.1 = true → p.1.length ≤ acc.1.length) →
    l.foldl
      (fun (acc : String × WordMap) kv =>
        if pyStartsWith sect kv.1 ∧ kv.1.length > acc.1.length then
          (kv.1, kv.2)
        else acc)
      acc = acc
  | [], acc, _ => rfl
  | p :: rest, acc, h => by
    rw [List.foldl_cons, if_neg, lookupFold_stable sect rest acc]
    · intro p' hp' hs
      exact h p' (List.mem_cons_of_mem _ hp') hs
    · rintro ⟨h1, h2⟩
      exact absurd (h p (List.mem_cons_self _ _) h1) (by omega)

/-- The best-prefix fold of `FLExDict.lookup` selects the unique longest
qualifying key once the accumulator is strictly shorter than it. -/
theorem lookupFold_picks (sect : String) :
    ∀ (l : FDict) (acc : String × WordMap) (k : String) (m : WordMap),
    (k, m) ∈ l → pyStartsWith sect k = true →
    (∀ p ∈ l, pyStartsWith sect p.1 = true → p.1.length ≤ k.length) →
    (∀ p ∈ l, pyStartsWith sect p.1 = true → p.1.length = k.length →
      p = (k, m)) →
    acc.1.length < k.length →
    l.foldl
      (fun (acc : String × WordMap) kv =>
        if pyStartsWith sect kv.1 ∧ kv.1.length > acc.1.length then
          (kv.1, kv.2)
        else acc)
      acc = (k, m)
  | [], _, k, m, hmem, _, _, _, _ => absurd hmem (List.not_mem_nil _)
  | p :: rest, acc, k, m, hmem, hk, hle, huniq, hacc => by
    by_cases hp : p = (k, m)
    · subst hp
      rw [List.foldl_cons, if_pos ⟨hk, by simpa using hacc⟩]
      exact lookupFold_stable sect rest (k, m)
        (fun p' hp' hs => hle p' (List.mem_cons_of_mem _ hp') hs)
    · have hmem' : (k, m) ∈ rest := by
        rcases List.mem_cons.mp hmem with h | h
        · exact absurd h.symm hp
        · exact h
      rw [List.foldl_cons]
      set acc' := if pyStartsWith sect p.1 ∧ p.1.length > acc.1.length
        then (p.1, p.2) else acc with hacc'
      have hlt : acc'.1.length < k.length := by
        rw [hacc']
        split
        · rename_i hcond
          have h1 := hle p (List.mem_cons_self _ _) hcond.1
          rcases Nat.lt_or_ge p.1.length k.length with h | h
          · simpa using h
          · have heq : p.1.length = k.length := by omega
            exact absurd (huniq p (List.mem_cons_self _ _) hcond.1 heq) hp
        · exact hacc
      exact lookupFold_picks sect rest acc' k m hmem' hk
        (fun p' hp' hs => hle p' (List.mem_cons_of_mem _ hp') hs)
        (fun p' hp' hs hl => huniq p' (List.mem_cons_of_mem _ hp') hs hl)
        hlt

/-- Two prefixes of the same string with equal length are equal. -/
theorem eq_of_same_length_starts {sect k1 k2 : String}
    (h1 : pyStartsWith sect k1 = true) (h2 : pyStartsWith sect k2 = true)
    (hlen : k1.length = k2.length) : k1 = k2 := by
  simp only [pyStartsWith, List.isPrefixOf_iff_prefix] at h1 h2
  obtain ⟨t1, ht1⟩ := h1
  obtain ⟨t2, ht2⟩ := h2
  have heq : k1.toList ++ t1 = k2.toList ++ t2 := ht1.trans ht2.symm
  have hl : k1.toList.length = k2.toList.length := hlen
  exact String.ext (List.append_inj heq hl).1

/-- In an association list with distinct keys, entries are determined by
their keys. -/
theorem entry_unique : ∀ {l : FDict},
    (l.map Prod.fst).Nodup → ∀ {p q : String × WordMap},
    p ∈ l → q ∈ l → p.1 = q.1 → p = q
  | [], _, _, _, hp, _, _ => absurd hp (List.not_mem_nil _)
  | a :: rest, hnd, p, q, hp, hq, hkey => by
    simp only [List.map_cons, List.nodup_cons] at hnd
    rcases List.mem_cons.mp hp with rfl | hp' <;>
      rcases List.mem_cons.mp hq with rfl | hq'
    · rfl
    · exact absurd (hkey ▸ List.mem_map_of_mem Prod.fst hq') hnd.1
    · exact absurd (hkey ▸ List.mem_map_of_mem Prod.fst hp') hnd.1
    · exact entry_unique hnd.2 hp' hq' hkey

/-- A non-empty string has positive length. -/
theorem length_pos_of_ne_empty {k : String} (h : k ≠ "") : 0 < k.length := by
  obtain ⟨l⟩ := k
  cases l with
  | nil => exact absurd rfl h
  | cons c cs => simp [String.length]

/-- Counterexample to C4: with a single partition keyed by the empty
string — which is a string-prefix of every section — a fallback lookup
returns absent even though that partition holds the word: the fold's
strict-length test never selects an empty key, contradicting the claim's
"the result is taken from the partition whose key is the longest
string-prefix of section". -/
theorem c4_counterexample :
    FLExDict.lookup emptyKeyDict "x" "w" = none ∧
    pyStartsWith "x" "" = true ∧
    ("", [("w", sampleWord "w")]) ∈ emptyKeyDict ∧
    dictGet [("w", sampleWord "w")] (strip_accents_and_spaces "w") =
      some (sampleWord "w") := by
  refine ⟨?_, ?_, ?_, ?_⟩ <;> decide

/-- C4 amended: if `section` exactly equals a partition key, the result is
that single partition's entry for the normalized word, with no fallback;
otherwise the result is taken from the partition whose key is the longest
NON-EMPTY string-prefix of `section` (absent when no non-empty key is a
prefix, or the word is missing there) — a partition keyed by the empty
string is never selected by the fallback. -/
theorem c4_amended_lookup_spec (dct : FDict) (sect word : String) :
    (∀ part, dct.find? (fun kv => kv.1 == sect) = some part →
      FLExDict.lookup dct sect word =
        dictGet part.2 (strip_accents_and_spaces word))
    ∧ (dct.find? (fun kv => kv.1 == sect) = none →
        (dct.map Prod.fst).Nodup →
        ∀ k m, (k, m) ∈ dct → k ≠ "" → pyStartsWith sect k = true →
        (∀ p ∈ dct, pyStartsWith sect p.1 = true →
          p.1.length ≤ k.length) →
        FLExDict.lookup dct sect word =
          dictGet m (strip_accents_and_spaces word))
    ∧ (dct.find? (fun kv => kv.1 == sect) = none →
        (∀ p ∈ dct, pyStartsWith sect p.1 = true → p.1 = "") →
        FLExDict.lookup dct sect word = none) := by
  refine ⟨?_, ?_, ?_⟩
  · intro part hfind
    simp [FLExDict.lookup, hfind]
  · intro hnone hnd k m hmem hkne hks hle
    have hpick := lookupFold_picks sect dct ("", []) k m hmem hks hle
      (fun p hp hs hl =>
        entry_unique hnd hp hmem
          (eq_of_same_length_starts hs hks (by simpa using hl)))
      (by simpa using length_pos_of_ne_empty hkne)
    simp [FLExDict.lookup, hnone, hpick]
  · intro hnone hall
    have hstable := lookupFold_stable sect dct ("", [])
      (fun p hp hs => by simp [hall p hp hs])
    simp [FLExDict.lookup, hnone, hstable, dictGet]

/-- Witness for C4 amended, realizing the claim's own example: with
partitions `{"2", "2.3"}`, looking up word `w` (present only in partition
`"2"`) in section `"2.3"` hits the exact partition `"2.3"` and returns
absent with no fallback, while looking up `v` in section `"2.3.9"` falls
back to the longest prefix partition `"2.3"` and finds it. -/
theorem c4_amended_lookup_spec_witness :
    FLExDict.lookup twoPartDict "2.3" "w" = none ∧
    FLExDict.lookup twoPartDict "2.3.9" "v" = some (sampleWord "v") := by
  constructor
  · have h := (c4_amended_lookup_spec twoPartDict "2.3" "w").1
      ("2.3", [("v", sampleWord "v")]) (by decide)
    rw [h]; decide
  · have h := (c4_amended_lookup_spec twoPartDict "2.3.9" "v").2.1
      (by decide) (by decide) "2.3" [("v", sampleWord "v")]
      (by decide) (by decide) (by decide) (by decide)
    rw [h]; decide

/-! ## Claim C5: idempotence of normalization -/

/-- Counterexample to C5: normalization is not idempotent.  The input
`"q ~"` contains no accent-table key (the space separates `q` from `~`),
so the first pass only removes the whitespace, producing `"q~"` — which IS
an accent-table key, so a second pass rewrites it to `"que"`. -/
theorem c5_counterexample :
    strip_accents_and_spaces "q ~" = "q~" ∧
    strip_accents_and_spaces (strip_accents_and_spaces "q ~") = "que" ∧
    strip_accents_and_spaces (strip_accents_and_spaces "q ~") ≠
      strip_accents_and_spaces "q ~" := by
  refine ⟨?_, ?_, ?_⟩ <;> decide

/-! ## Claim C3: marker elimination -/

/-- Inversion for a successful `Except` bind. -/
theorem except_bind_ok_inv {e a b : Type} {x : Except e a}
    {f : a → Except e b} {y : b}
    (h : x >>= f = .ok y) : ∃ z, x = .ok z ∧ f z = .ok y := by
  cases x with
  | error err =>
    rw [show (Except.error err >>= f : Except e b) = Except.error err
      from rfl] at h
    exact Except.noConfusion h
  | ok z => exact ⟨z, rfl, h⟩

/-- A successful sink close appends exactly one closing event and leaves
the tag stack, counters and text name unchanged. -/
theorem augEnd_shape {st st' : PagerState} {nn : NSName} {q : String}
    (h : augEnd st nn q = .ok st') :
    st'.out = st.out ++ [.closing nn q] ∧ st'.tagStack = st.tagStack ∧
    st'.page = st.page ∧ st'.line = st.line ∧
    st'.textName = st.textName := by
  unfold augEnd at h
  split at h
  · exact Except.noConfusion h
  · split at h
    · split at h
      · exact Except.noConfusion h
      · injection h with h'
        subst h'
        simp
    · exact Except.noConfusion h

/-- A successful `closeTags` appends exactly the closes of the listed tags
(innermost-first) and leaves the tag stack, counters and text name
unchanged. -/
theorem closeTags_shape : ∀ {l : List (NSName × String × SaxAttrs)}
    {st st' : PagerState}, closeTags l st = .ok st' →
    st'.out = st.out ++ l.map (fun e => OutEvent.closing e.1 e.2.1) ∧
    st'.tagStack = st.tagStack ∧ st'.page = st.page ∧
    st'.line = st.line ∧ st'.textName = st.textName := by
  intro l
  induction l with
  | nil =>
    intro st st' h
    injection h with h'
    subst h'
    simp
  | cons e es ih =>
    intro st st' h
    rw [closeTags] at h
    obtain ⟨st₁, h1, h2⟩ := except_bind_ok_inv h
    obtain ⟨ho1, ht1, hp1, hl1, hn1⟩ := augEnd_shape h1
    obtain ⟨ho2, ht2, hp2, hl2, hn2⟩ := ih h2
    refine ⟨?_, by rw [ht2, ht1], by rw [hp2, hp1], by rw [hl2, hl1],
      by rw [hn2, hn1]⟩
    rw [ho2, ho1]
    simp

/-- A successful `handlePageBreak` appends the closes of all stacked tags,
the close of the page wrapper, the new page wrapper at page `page + 1`,
and the reopening of all stacked tags; the tag stack is unchanged and the
page is incremented. -/
theorem handlePageBreak_shape {st st' : PagerState} {rvn : String}
    (h : handlePageBreak st rvn = .ok st') :
    st'.out = st.out
      ++ st.tagStack.map (fun e => OutEvent.closing e.1 e.2.1)
      ++ [OutEvent.closing (none, "div") "div"]
      ++ [OutEvent.opening (none, "div") "div"
            (some [((none, "class"), "printed-text-page " ++ st.textName),
                   ((none, "data-n"), toString (st.page + 1)),
                   ((none, "data-rvn"), rvn)])]
      ++ st.tagStack.reverse.map
           (fun e => OutEvent.opening e.1 e.2.1 (some e.2.2)) ∧
    st'.tagStack = st.tagStack ∧ st'.page = st.page + 1 ∧
    st'.textName = st.textName := by
  rw [handlePageBreak] at h
  obtain ⟨st₁, h1, h2⟩ := except_bind_ok_inv h
  obtain ⟨st₂, h3, h4⟩ := except_bind_ok_inv h2
  have hca : closeAllTags { st with line := 1, page := st.page + 1 } =
      closeTags st.tagStack { st with line := 1, page := st.page + 1 } :=
    rfl
  rw [hca] at h1
  obtain ⟨ho1, ht1, hp1, _, hn1⟩ := closeTags_shape h1
  obtain ⟨ho2, ht2, hp2, _, hn2⟩ := augEnd_shape h3
  injection h4 with h4'
  subst h4'
  rw [reopenAllTags, augStart_foldl, startNewPageDiv, augStartElement,
    augStart]
  simp only at ho1 ht1 hp1 hn1
  refine ⟨?_, ?_, ?_, ?_⟩ <;>
    simp [ho2, ho1, ht2, ht1, hp2, hp1, hn2, hn1]

/-- A successful `handleColumnBreak` appends only plain or `col-xs-6`
column divs, and leaves the tag stack, page, line and text name
unchanged. -/
theorem handleColumnBreak_shape {st st' : PagerState} {n : Option String}
    (h : handleColumnBreak st n = .ok st') :
    (∃ added, st'.out = st.out ++ added ∧
      ∀ e ∈ added,
        e = OutEvent.opening (none, "div") "div" none ∨
        e = OutEvent.opening (none, "div") "div"
              (some [((none, "class"), "col-xs-6")]) ∨
        e = OutEvent.closing (none, "div") "div") ∧
    st'.tagStack = st.tagStack ∧ st'.page = st.page ∧
    st'.line = st.line ∧ st'.textName = st.textName := by
  rw [handleColumnBreak] at h
  by_cases h1 : n = some "1"
  · rw [if_pos h1] at h
    injection h with h'
    subst h'
    refine ⟨⟨[OutEvent.opening (none, "div") "div" none,
             OutEvent.opening (none, "div") "div"
               (some [((none, "class"), "col-xs-6")])], ?_, ?_⟩,
      rfl, rfl, rfl, rfl⟩
    · simp [augStartElement, augStart]
    · intro e he
      simp at he
      rcases he with rfl | rfl
      · exact .inl rfl
      · exact .inr (.inl rfl)
  · rw [if_neg h1] at h
    by_cases h2 : n = some ""
    · rw [if_pos h2] at h
      obtain ⟨st₁, hA, hB⟩ := except_bind_ok_inv h
      obtain ⟨ho1, ht1, hp1, hl1, hn1⟩ := augEnd_shape hA
      obtain ⟨ho2, ht2, hp2, hl2, hn2⟩ := augEnd_shape hB
      refine ⟨⟨[OutEvent.closing (none, "div") "div",
               OutEvent.closing (none, "div") "div"], ?_, ?_⟩,
        by rw [ht2, ht1], by rw [hp2, hp1], by rw [hl2, hl1],
        by rw [hn2, hn1]⟩
      · rw [ho2, ho1]; simp
      · intro e he
        simp at he
        rcases he with rfl | rfl <;> exact .inr (.inr rfl)
    · rw [if_neg h2] at h
      obtain ⟨st₁, hA, hB⟩ := except_bind_ok_inv h
      obtain ⟨ho1, ht1, hp1, hl1, hn1⟩ := augEnd_shape hA
      injection hB with hB'
      subst hB'
      refine ⟨⟨[OutEvent.closing (none, "div") "div",
               OutEvent.opening (none, "div") "div"
                 (some [((none, "class"), "col-xs-6")])], ?_, ?_⟩, ?_, ?_, ?_, ?_⟩
      · simp only [augStartElement, augStart, ho1]
        simp
      · intro e he
        simp at he
        rcases he with rfl | rfl
        · exact .inr (.inr rfl)
        · exact .inr (.inl rfl)
      · simp [augStartElement, augStart, ht1]
      · simp [augStartElement, augStart, hp1]
      · simp [augStartElement, augStart, hl1]
      · simp [augStartElement, augStart, hn1]

/-- One Paginator step preserves marker-freeness of the emitted output and
of the open-tag stack. -/
theorem pagerStep_marker_free {st st' : PagerState} {ev : SaxEvent}
    (h : pagerStep st ev = .ok st')
    (hout : ∀ e ∈ st.out, isMarkerOut e = false)
    (hstack : ∀ t ∈ st.tagStack,
      (tag_eq t.2.1 "pb" || tag_eq t.2.1 "cb") = false) :
    (∀ e ∈ st'.out, isMarkerOut e = false) ∧
    (∀ t ∈ st'.tagStack,
      (tag_eq t.2.1 "pb" || tag_eq t.2.1 "cb") = false) := by
  cases ev with
  | start nn q attrs =>
    simp only [pagerStep] at h
    cases hpb : tag_eq q "pb" with
    | true =>
      rw [hpb] at h
      simp only [if_true] at h
      by_cases htype : attrsGet attrs (none, "type") ≠ some "pdf"
      · rw [if_pos htype] at h
        obtain ⟨ho, ht, _, _⟩ := handlePageBreak_shape h
        refine ⟨?_, by rw [ht]; exact hstack⟩
        rw [ho]
        intro e he
        simp only [List.append_assoc, List.mem_append] at he
        rcases he with he | he | he | he | he
        · exact hout e he
        · obtain ⟨t, hmem, rfl⟩ := List.mem_map.mp he
          simpa [isMarkerOut] using hstack t hmem
        · simp at he; subst he; decide
        · simp at he; subst he; simp only [isMarkerOut]; decide
        · obtain ⟨t, hmem, rfl⟩ := List.mem_map.mp he
          simpa [isMarkerOut] using hstack t (List.mem_reverse.mp hmem)
      · rw [if_neg htype] at h
        injection h with h'
        subst h'
        exact ⟨hout, hstack⟩
    | false =>
      rw [hpb] at h
      simp only [Bool.false_eq_true, if_false] at h
      cases hcb : tag_eq q "cb" with
      | true =>
        rw [hcb] at h
        simp only [if_true] at h
        obtain ⟨⟨added, ho, hadd⟩, ht, _, _, _⟩ := handleColumnBreak_shape h
        refine ⟨?_, by rw [ht]; exact hstack⟩
        rw [ho]
        intro e he
        rcases List.mem_append.mp he with he | he
        · exact hout e he
        · rcases hadd e he with rfl | rfl | rfl <;>
            (simp only [isMarkerOut]; decide)
      | false =>
        rw [hcb] at h
        simp only [Bool.false_eq_true, if_false] at h
        cases hbody : tag_eq q "body" with
        | true =>
          rw [hbody] at h
          simp only [if_true] at h
          injection h with h'
          subst h'
          refine ⟨?_, hstack⟩
          intro e he
          simp only [startNewPageDiv, augStartElement, augStart,
            List.append_assoc, List.mem_append] at he
          rcases he with he | he
          · exact hout e he
          · simp at he
            rcases he with rfl | rfl <;> (simp only [isMarkerOut]; decide)
        | false =>
          rw [hbody] at h
          simp only [Bool.false_eq_true, if_false] at h
          injection h with h'
          subst h'
          constructor
          · intro e he
            simp only [augStart, List.mem_append] at he
            rcases he with he | he
            · split at he <;> exact hout e he
            · simp at he
              subst he
              simp [isMarkerOut, hpb, hcb]
          · intro t ht
            simp only [augStart] at ht
            split at ht <;>
            · simp only [List.mem_cons] at ht
              rcases ht with rfl | ht
              · simp [hpb, hcb]
              · exact hstack t ht
  | stop nn q =>
    simp only [pagerStep] at h
    cases hbody : tag_eq q "body" with
    | true =>
      rw [hbody] at h
      simp only [if_true] at h
      obtain ⟨st₁, hA, hB⟩ := except_bind_ok_inv h
      obtain ⟨ho1, ht1, _, _, _⟩ := augEnd_shape hA
      obtain ⟨ho2, ht2, _, _, _⟩ := augEnd_shape hB
      constructor
      · intro e he
        rw [ho2, ho1] at he
        simp only [List.append_assoc, List.mem_append] at he
        rcases he with he | he
        · exact hout e he
        · simp at he
          rcases he with rfl | rfl <;> decide
      · rw [ht2, ht1]
        exact hstack
    | false =>
      rw [hbody] at h
      simp only [Bool.false_eq_true, if_false] at h
      cases hmk : (!tag_eq q "pb" && !tag_eq q "cb") with
      | true =>
        rw [hmk] at h
        simp only [if_true] at h
        split at h
        · exact Except.noConfusion h
        · rename_i t0 trest hts
          split at h
          · rename_i st₁ haug
            injection h with h'
            subst h'
            obtain ⟨ho, ht, _, _, _⟩ := augEnd_shape haug
            simp only [Bool.and_eq_true, Bool.not_eq_true'] at hmk
            constructor
            · intro e he
              rw [ho] at he
              simp only [List.mem_append] at he
              rcases he with he | he
              · exact hout e he
              · simp at he
                subst he
                simp [isMarkerOut, hmk.1, hmk.2]
            · rw [ht]
              intro t htm
              exact hstack t (hts ▸ List.mem_cons_of_mem _ htm)
          · exact Except.noConfusion h
      | false =>
        rw [hmk] at h
        simp only [Bool.false_eq_true, if_false] at h
        injection h with h'
        subst h'
        exact ⟨hout, hstack⟩
  | chars s =>
    simp only [pagerStep] at h
    split at h
    · exact Except.noConfusion h
    · injection h with h'
      subst h'
      constructor
      · intro e he
        simp only [List.mem_append] at he
        rcases he with he | he
        · exact hout e he
        · simp at he
          subst he
          simp [isMarkerOut]
      · exact hstack

/-- Marker-freeness is an invariant of a whole Paginator fold. -/
theorem pagerFold_marker_free : ∀ (evs : List SaxEvent)
    (st st' : PagerState),
    evs.foldlM pagerStep st = .ok st' →
    (∀ e ∈ st.out, isMarkerOut e = false) →
    (∀ t ∈ st.tagStack,
      (tag_eq t.2.1 "pb" || tag_eq t.2.1 "cb") = false) →
    ∀ e ∈ st'.out, isMarkerOut e = false
  | [], st, st', h, hout, _ => by
    injection h with h'
    subst h'
    exact hout
  | ev :: evs, st, st', h, hout, hstack => by
    rw [List.foldlM_cons] at h
    obtain ⟨st₁, h1, h2⟩ := except_bind_ok_inv h
    obtain ⟨hout₁, hstack₁⟩ := pagerStep_marker_free h1 hout hstack
    exact pagerFold_marker_free evs st₁ st' h2 hout₁ hstack₁

/-- C3: for every input event stream on which a pagination run succeeds,
the output contains zero page-break and zero column-break marker elements:
every `pb`/`cb` open is consumed into state changes and wrapper-div events,
every `pb`/`cb` close is dropped, and no marker survives in the emitted
output. -/
theorem c3_marker_elimination (textName : String) (evs : List SaxEvent)
    (st' : PagerState) (h : pagerRun textName evs = .ok st') :
    ∀ e ∈ st'.out, isMarkerOut e = false := by
  exact pagerFold_marker_free evs (pagerInit textName) st' h
    (by intro e he; exact absurd he (List.not_mem_nil e))
    (by intro t ht; exact absurd ht (List.not_mem_nil t))

/-- Witness for C3: the spec's end-to-end example
`<body><p>A<pb n="1"/>B</p></body>` paginates successfully and filtering
its output for marker events yields the empty list. -/
theorem c3_marker_elimination_witness :
    (pagerRun "demo"
      [.start (none, "body") "body" [],
       .start (none, "p") "p" [],
       .chars "A",
       .start (none, "pb") "pb" [((none, "n"), "1")],
       .chars "B",
       .stop (none, "pb") "pb",
       .stop (none, "p") "p",
       .stop (none, "body") "body"]).map
      (fun st => st.out.filter isMarkerOut) = .ok [] := by
  cases hrun : pagerRun "demo"
      [.start (none, "body") "body" [],
       .start (none, "p") "p" [],
       .chars "A",
       .start (none, "pb") "pb" [((none, "n"), "1")],
       .chars "B",
       .stop (none, "pb") "pb",
       .stop (none, "p") "p",
       .stop (none, "body") "body"] with
  | error e =>
    have hok : (pagerRun "demo"
      [.start (none, "body") "body" [],
       .start (none, "p") "p" [],
       .chars "A",
       .start (none, "pb") "pb" [((none, "n"), "1")],
       .chars "B",
       .stop (none, "pb") "pb",
       .stop (none, "p") "p",
       .stop (none, "body") "body"]).isOk = true := by decide
    rw [hrun] at hok
    exact Bool.noConfusion hok
  | ok st' =>
    have hm := c3_marker_elimination "demo" _ st' hrun
    simp only [Except.map]
    congr 1
    refine List.filter_eq_nil_iff.mpr ?_
    intro e he
    rw [hm e he]
    exact Bool.false_ne_true

/-! ## Claim C2: page count correctness -/

/-- The column wrapper class is never the page wrapper class. -/
theorem col_class_ne_wrapper (tname : String) :
    (("col-xs-6" : String) == "printed-text-page " ++ tname) = false := by
  rw [beq_eq_false_iff_ne]
  intro h
  have hl := congrArg String.length h
  rw [String.length_append] at hl
  have h8 : ("col-xs-6" : String).length = 8 := by decide
  have h18 : ("printed-text-page " : String).length = 18 := by decide
  omega


/-- Lemma: `wrapperDataN` distributes over appended output. -/
theorem wrapperDataN_append (tname : String) (a b : List OutEvent) :
    wrapperDataN tname (a ++ b) =
      wrapperDataN tname a ++ wrapperDataN tname b := by
  simp [wrapperDataN, List.filter_append]

/-- Closing events contribute no page wrappers. -/
theorem wrapperDataN_closing (tname : String) (nn : NSName) (q : String) :
    wrapperDataN tname [OutEvent.closing nn q] = [] := rfl

/-- Text events contribute no page wrappers. -/
theorem wrapperDataN_text (tname s : String) :
    wrapperDataN tname [OutEvent.text s] = [] := rfl

/-- Attribute-less opens contribute no page wrappers. -/
theorem wrapperDataN_opening_none (tname : String) (nn : NSName)
    (q : String) : wrapperDataN tname [OutEvent.opening nn q none] = [] :=
  rfl

/-- An open without the wrapper class contributes no page wrappers. -/
theorem wrapperDataN_opening_other (tname : String) (nn : NSName)
    (q : String) (a : SaxAttrs)
    (h : (attrsGet a (none, "class") ==
      some ("printed-text-page " ++ tname)) = false) :
    wrapperDataN tname [OutEvent.opening nn q (some a)] = [] := by
  simp [wrapperDataN, isWrapperOpen, h]

/-- The page wrapper emitted by `startNewPageDiv` contributes exactly its
`data-n` value. -/
theorem wrapperDataN_wrapper (tname pageNo rvn : String) (nn : NSName)
    (q : String) :
    wrapperDataN tname
      [OutEvent.opening nn q
        (some [((none, "class"), "printed-text-page " ++ tname),
               ((none, "data-n"), pageNo),
               ((none, "data-rvn"), rvn)])] = [some pageNo] := by
  have h1 : (((none, "class") : Option String × String) ==
    (none, "data-n")) = false := by decide
  simp [wrapperDataN, isWrapperOpen, attrsGet, List.find?, h1]

/-- Mapped closes contribute no page wrappers. -/
theorem wrapperDataN_map_closing (tname : String)
    (l : List (NSName × String × SaxAttrs)) :
    wrapperDataN tname
      (l.map (fun e => OutEvent.closing e.1 e.2.1)) = [] := by
  simp only [wrapperDataN]
  rw [List.filter_eq_nil_iff.mpr, List.map_nil]
  intro e he
  obtain ⟨t, _, rfl⟩ := List.mem_map.mp he
  simp [isWrapperOpen]

/-- Reopened stacked tags without the wrapper class contribute no page
wrappers. -/
theorem wrapperDataN_map_opening (tname : String)
    (l : List (NSName × String × SaxAttrs))
    (h : ∀ t ∈ l, (attrsGet t.2.2 (none, "class") ==
      some ("printed-text-page " ++ tname)) = false) :
    wrapperDataN tname
      (l.map (fun e => OutEvent.opening e.1 e.2.1 (some e.2.2))) = [] := by
  simp only [wrapperDataN]
  rw [List.filter_eq_nil_iff.mpr, List.map_nil]
  intro e he
  obtain ⟨t, hmem, rfl⟩ := List.mem_map.mp he
  simp [isWrapperOpen, h t hmem]

/-- One Paginator step preserves the page-wrapper bookkeeping: the
`data-n` values of emitted page wrappers are exactly `0, 1, …, page`, no
stacked tag carries the wrapper class, the text name is stable, and the
page counter grows by one exactly on content-type page breaks. -/
theorem pagerStep_wrapper_count {tname : String} {st st' : PagerState}
    {ev : SaxEvent}
    (h : pagerStep st ev = .ok st')
    (hout : wrapperDataN tname st.out =
      (List.range (st.page + 1)).map (fun i => some (toString i)))
    (hstack : ∀ t ∈ st.tagStack,
      (attrsGet t.2.2 (none, "class") ==
        some ("printed-text-page " ++ tname)) = false)
    (hname : st.textName = tname)
    (hev : ∀ nn q attrs, ev = SaxEvent.start nn q attrs →
      tag_eq q "body" = false ∧
      (attrsGet attrs (none, "class") ==
        some ("printed-text-page " ++ tname)) = false) :
    wrapperDataN tname st'.out =
      (List.range (st'.page + 1)).map (fun i => some (toString i)) ∧
    (∀ t ∈ st'.tagStack,
      (attrsGet t.2.2 (none, "class") ==
        some ("printed-text-page " ++ tname)) = false) ∧
    st'.textName = tname ∧
    st'.page = st.page + (if isContentPb ev then 1 else 0) := by
  cases ev with
  | start nn q attrs =>
    simp only [pagerStep] at h
    cases hpb : tag_eq q "pb" with
    | true =>
      rw [hpb] at h
      simp only [if_true] at h
      by_cases htype : attrsGet attrs (none, "type") ≠ some "pdf"
      · rw [if_pos htype] at h
        obtain ⟨ho, ht, hp, hn⟩ := handlePageBreak_shape h
        have hcpb : isContentPb (SaxEvent.start nn q attrs) = true := by
          simp [isContentPb, hpb]
          exact htype
        refine ⟨?_, by rw [ht]; exact hstack, by rw [hn, hname],
          by rw [hp, hcpb]; simp⟩
        rw [ho, hp, hname]
        rw [wrapperDataN_append, wrapperDataN_append, wrapperDataN_append,
          wrapperDataN_append, hout, wrapperDataN_map_closing,
          wrapperDataN_closing, wrapperDataN_wrapper,
          wrapperDataN_map_opening tname _
            (fun t hmem => hstack t (List.mem_reverse.mp hmem))]
        simp [List.range_succ]
      · rw [if_neg htype] at h
        injection h with h'
        subst h'
        push_neg at htype
        refine ⟨hout, hstack, hname, ?_⟩
        simp [isContentPb, htype]
    | false =>
      rw [hpb] at h
      simp only [Bool.false_eq_true, if_false] at h
      have hcpb : isContentPb (SaxEvent.start nn q attrs) = false := by
        simp [isContentPb, hpb]
      cases hcb : tag_eq q "cb" with
      | true =>
        rw [hcb] at h
        simp only [if_true] at h
        obtain ⟨⟨added, ho, hadd⟩, ht, hp, _, hn⟩ := handleColumnBreak_shape h
        refine ⟨?_, by rw [ht]; exact hstack, by rw [hn, hname],
          by rw [hp, hcpb]; simp⟩
        rw [ho, hp, wrapperDataN_append, hout]
        have hz : wrapperDataN tname added = [] := by
          simp only [wrapperDataN]
          rw [List.filter_eq_nil_iff.mpr, List.map_nil]
          intro e he
          rcases hadd e he with rfl | rfl | rfl
          · simp [isWrapperOpen]
          · simp [isWrapperOpen, attrsGet, List.find?,
              col_class_ne_wrapper tname]
          · simp [isWrapperOpen]
        rw [hz, List.append_nil]
      | false =>
        rw [hcb] at h
        simp only [Bool.false_eq_true, if_false] at h
        cases hbody : tag_eq q "body" with
        | true =>
          exact absurd hbody (by simpa using (hev nn q attrs rfl).1)
        | false =>
          rw [hbody] at h
          simp only [Bool.false_eq_true, if_false] at h
          cases hbr : tag_eq q "br" with
          | true =>
            rw [hbr] at h
            rw [if_pos rfl] at h
            injection h with h'
            subst h'
            refine ⟨?_, ?_, ?_, ?_⟩
            · simp only [augStart]
              rw [wrapperDataN_append, hout,
                wrapperDataN_opening_other tname nn q attrs
                  (hev nn q attrs rfl).2, List.append_nil]
            · simp only [augStart]
              intro t htm
              simp only [List.mem_cons] at htm
              rcases htm with rfl | htm
              · exact (hev nn q attrs rfl).2
              · exact hstack t htm
            · exact hname
            · rw [hcpb]; simp [augStart]
          | false =>
            rw [hbr] at h
            rw [if_neg (by simp)] at h
            injection h with h'
            subst h'
            refine ⟨?_, ?_, ?_, ?_⟩
            · simp only [augStart]
              rw [wrapperDataN_append, hout,
                wrapperDataN_opening_other tname nn q attrs
                  (hev nn q attrs rfl).2, List.append_nil]
            · simp only [augStart]
              intro t htm
              simp only [List.mem_cons] at htm
              rcases htm with rfl | htm
              · exact (hev nn q attrs rfl).2
              · exact hstack t htm
            · exact hname
            · rw [hcpb]; simp [augStart]
  | stop nn q =>
    have hcpb : isContentPb (SaxEvent.stop nn q) = false := rfl
    simp only [pagerStep] at h
    cases hbody : tag_eq q "body" with
    | true =>
      rw [hbody] at h
      simp only [if_true] at h
      obtain ⟨st₁, hA, hB⟩ := except_bind_ok_inv h
      obtain ⟨ho1, ht1, hp1, _, hn1⟩ := augEnd_shape hA
      obtain ⟨ho2, ht2, hp2, _, hn2⟩ := augEnd_shape hB
      refine ⟨?_, by rw [ht2, ht1]; exact hstack, by rw [hn2, hn1, hname],
        by rw [hp2, hp1, hcpb]; simp⟩
      rw [ho2, ho1, hp2, hp1, wrapperDataN_append, wrapperDataN_append,
        hout, wrapperDataN_closing]
      simp
    | false =>
      rw [hbody] at h
      simp only [Bool.false_eq_true, if_false] at h
      cases hmk : (!tag_eq q "pb" && !tag_eq q "cb") with
      | true =>
        rw [hmk] at h
        simp only [if_true] at h
        split at h
        · exact Except.noConfusion h
        · rename_i t0 trest hts
          split at h
          · rename_i st₁ haug
            injection h with h'
            subst h'
            obtain ⟨ho, ht, hp, _, hn⟩ := augEnd_shape haug
            refine ⟨?_, ?_, by rw [hn, hname], by rw [hp, hcpb]; simp⟩
            · rw [ho, hp, wrapperDataN_append, hout, wrapperDataN_closing]
              simp
            · rw [ht]
              intro t htm
              exact hstack t (hts ▸ List.mem_cons_of_mem _ htm)
          · exact Except.noConfusion h
      | false =>
        rw [hmk] at h
        simp only [Bool.false_eq_true, if_false] at h
        injection h with h'
        subst h'
        exact ⟨hout, hstack, hname, by rw [hcpb]; simp⟩
  | chars s =>
    have hcpb : isContentPb (SaxEvent.chars s) = false := rfl
    simp only [pagerStep] at h
    split at h
    · exact Except.noConfusion h
    · injection h with h'
      subst h'
      refine ⟨?_, hstack, hname, by rw [hcpb]; simp⟩
      rw [wrapperDataN_append, hout, wrapperDataN_text, List.append_nil]

/-- The wrapper bookkeeping is an invariant of a Paginator fold over
events none of which opens a `body` or carries the wrapper class. -/
theorem pagerFold_wrapper_count {tname : String} : ∀ (evs : List SaxEvent)
    (st st' : PagerState),
    evs.foldlM pagerStep st = .ok st' →
    wrapperDataN tname st.out =
      (List.range (st.page + 1)).map (fun i => some (toString i)) →
    (∀ t ∈ st.tagStack,
      (attrsGet t.2.2 (none, "class") ==
        some ("printed-text-page " ++ tname)) = false) →
    st.textName = tname →
    (∀ ev ∈ evs, ∀ nn q attrs, ev = SaxEvent.start nn q attrs →
      tag_eq q "body" = false ∧
      (attrsGet attrs (none, "class") ==
        some ("printed-text-page " ++ tname)) = false) →
    wrapperDataN tname st'.out =
      (List.range (st'.page + 1)).map (fun i => some (toString i)) ∧
    st'.page = st.page + countContentPb evs
  | [], st, st', h, hout, _, _, _ => by
    injection h with h'
    subst h'
    exact ⟨hout, by simp [countContentPb]⟩
  | ev :: evs, st, st', h, hout, hstack, hname, hev => by
    rw [List.foldlM_cons] at h
    obtain ⟨st₁, h1, h2⟩ := except_bind_ok_inv h
    obtain ⟨hout₁, hstack₁, hname₁, hpage₁⟩ :=
      pagerStep_wrapper_count h1 hout hstack hname
        (fun nn q attrs heq => hev ev (List.mem_cons_self _ _) nn q attrs heq)
    obtain ⟨hout', hpage'⟩ := pagerFold_wrapper_count evs st₁ st' h2
      hout₁ hstack₁ hname₁
      (fun e he nn q attrs heq =>
        hev e (List.mem_cons_of_mem _ he) nn q attrs heq)
    refine ⟨hout', ?_⟩
    rw [hpage', hpage₁]
    simp only [countContentPb, List.filter_cons]
    split <;> simp <;> omega

mutual

/-- Trees free of `body` elements and wrapper-class attributes produce
only event starts satisfying the Paginator middle conditions. -/
theorem xtreeEvents_start_ok (tname : String) : ∀ (t : XTree),
    noBodyTree t = true → noWrapperTree tname t = true →
    ∀ ev ∈ xtreeEvents t, ∀ nn q attrs, ev = SaxEvent.start nn q attrs →
      tag_eq q "body" = false ∧
      (attrsGet attrs (none, "class") ==
        some ("printed-text-page " ++ tname)) = false
  | .text s, _, _ => by
    intro ev he nn q attrs heq
    simp only [xtreeEvents, List.mem_singleton] at he
    subst he
    exact SaxEvent.noConfusion heq
  | .elem nn0 q0 a0 cs, hb, hw => by
    intro ev he nn q attrs heq
    simp only [noBodyTree, Bool.and_eq_true] at hb
    simp only [noWrapperTree, Bool.and_eq_true] at hw
    simp only [xtreeEvents, List.mem_cons, List.mem_append,
      List.mem_singleton] at he
    rcases he with (rfl | he) | (rfl | hfalse)
    · injection heq with h1 h2 h3
      subst h2
      subst h3
      refine ⟨by simpa using hb.1, by simpa using hw.1⟩
    · exact xtreeEventsList_start_ok tname cs hb.2 hw.2 ev he nn q attrs heq
    · exact SaxEvent.noConfusion heq
    · exact absurd hfalse (List.not_mem_nil ev)

/-- Forest version of `xtreeEvents_start_ok`. -/
theorem xtreeEventsList_start_ok (tname : String) : ∀ (ts : List XTree),
    noBodyForest ts = true → noWrapperForest tname ts = true →
    ∀ ev ∈ xtreeEventsList ts, ∀ nn q attrs, ev = SaxEvent.start nn q attrs →
      tag_eq q "body" = false ∧
      (attrsGet attrs (none, "class") ==
        some ("printed-text-page " ++ tname)) = false
  | [], _, _ => by
    intro ev he
    exact absurd he (List.not_mem_nil ev)
  | t :: ts, hb, hw => by
    intro ev he nn q attrs heq
    simp only [noBodyForest, Bool.and_eq_true] at hb
    simp only [noWrapperForest, Bool.and_eq_true] at hw
    simp only [xtreeEventsList, List.mem_append] at he
    rcases he with he | he
    · exact xtreeEvents_start_ok tname t hb.1 hw.1 ev he nn q attrs heq
    · exact xtreeEventsList_start_ok tname ts hb.2 hw.2 ev he nn q attrs heq

end

/-- C2: for a valid input tree — a `body` root whose descendants contain
no further `body` element and no element carrying the generated
page-wrapper class — with exactly `N` content-type page-break markers
(`type` absent or not the PDF sentinel; markers with the PDF sentinel are
ignored), a successful pagination emits exactly `N + 1` page-wrapper
containers, whose `data-n` page numbers are `"0", "1", …`: the first one
(opened on entering `body` with `page` still 0) carries `"0"` and the last
carries the string of `N`. -/
theorem c2_page_count (tname : String) (nnb : NSName) (qb : String)
    (ab : SaxAttrs) (cs : List XTree) (st' : PagerState) (N : Nat)
    (hbody : tag_eq qb "body" = true)
    (hnb : noBodyForest cs = true)
    (hnw : noWrapperForest tname cs = true)
    (hrun : pagerRun tname (xtreeEvents (XTree.elem nnb qb ab cs)) = .ok st')
    (hN : N = countContentPb (xtreeEvents (XTree.elem nnb qb ab cs))) :
    wrapperDataN tname st'.out =
      (List.range (N + 1)).map (fun i => some (toString i)) ∧
    (st'.out.filter (isWrapperOpen tname)).length = N + 1 ∧
    (wrapperDataN tname st'.out).head? = some (some "0") ∧
    (wrapperDataN tname st'.out).getLast? = some (some (toString N)) := by
  have hpb := (tag_eq_body_not_marker hbody).1
  have hcb := (tag_eq_body_not_marker hbody).2
  have hevents : xtreeEvents (XTree.elem nnb qb ab cs) =
      SaxEvent.start nnb qb ab ::
        (xtreeEventsList cs ++ [SaxEvent.stop nnb qb]) := by
    simp [xtreeEvents]
  rw [hevents] at hrun
  rw [pagerRun, List.foldlM_cons] at hrun
  obtain ⟨st₁, h1, h2⟩ := except_bind_ok_inv hrun
  simp only [pagerStep, hpb, hcb, hbody, Bool.false_eq_true, if_false,
    if_true] at h1
  injection h1 with h1'
  have hout₁ : wrapperDataN tname st₁.out =
      (List.range (st₁.page + 1)).map (fun i => some (toString i)) := by
    rw [← h1']
    simp only [startNewPageDiv, augStartElement, augStart, pagerInit,
      Option.map_some', Option.map_none', List.map_cons, List.map_nil,
      List.nil_append]
    rw [wrapperDataN_append, wrapperDataN_opening_none,
      wrapperDataN_wrapper]
    simp [List.range_succ]
  have hstack₁ : ∀ t ∈ st₁.tagStack,
      (attrsGet t.2.2 (none, "class") ==
        some ("printed-text-page " ++ tname)) = false := by
    rw [← h1']
    intro t ht
    exact absurd ht (List.not_mem_nil t)
  have hname₁ : st₁.textName = tname := by
    rw [← h1']
    rfl
  have hpage₁ : st₁.page = 0 := by
    rw [← h1']
    rfl
  obtain ⟨hout', hpage'⟩ := pagerFold_wrapper_count
    (xtreeEventsList cs ++ [SaxEvent.stop nnb qb]) st₁ st' h2
    hout₁ hstack₁ hname₁
    (by
      intro ev he nn q attrs heq
      rcases List.mem_append.mp he with he | he
      · exact xtreeEventsList_start_ok tname cs hnb hnw ev he nn q attrs heq
      · rw [List.mem_singleton] at he
        subst he
        exact SaxEvent.noConfusion heq)
  have hNval : st'.page = N := by
    rw [hpage', hpage₁, hN, hevents]
    have : isContentPb (SaxEvent.start nnb qb ab) = false := by
      simp [isContentPb, hpb]
    simp [countContentPb, List.filter_cons, this]
  rw [hNval] at hout'
  refine ⟨hout', ?_, ?_, ?_⟩
  · have hlen : (st'.out.filter (isWrapperOpen tname)).length =
        (wrapperDataN tname st'.out).length := by
      simp [wrapperDataN]
    rw [hlen, hout']
    simp
  · rw [hout', List.head?_map]
    rw [show List.range (N + 1) = 0 :: (List.range N).map Nat.succ
      from List.range_succ_eq_map N]
    rfl
  · rw [hout', List.getLast?_map]
    rw [List.range_succ, List.getLast?_concat]
    rfl

/-- Witness for C2: the end-to-end example `<body><p>A<pb n="1"/>B</p></body>`
(one content page break) produces exactly two page wrappers, the first
numbered `"0"` and the last numbered `"1"`. -/
theorem c2_page_count_witness :
    (pagerRun "demo"
      (xtreeEvents (XTree.elem (none, "body") "body" [] demoBodyChildren))).map
      (fun st =>
        ((st.out.filter (isWrapperOpen "demo")).length,
         (wrapperDataN "demo" st.out).head?,
         (wrapperDataN "demo" st.out).getLast?)) =
    .ok (2, some (some "0"), some (some "1")) := by
  cases hrun : pagerRun "demo"
      (xtreeEvents (XTree.elem (none, "body") "body" [] demoBodyChildren)) with
  | error e =>
    have hok : (pagerRun "demo"
      (xtreeEvents
        (XTree.elem (none, "body") "body" [] demoBodyChildren))).isOk =
      true := by decide
    rw [hrun] at hok
    exact Bool.noConfusion hok
  | ok st' =>
    obtain ⟨h1, h2, h3, h4⟩ := c2_page_count "demo" (none, "body") "body"
      [] demoBodyChildren st' 1 (by decide) (by decide) (by decide) hrun
      (by decide)
    simp only [Except.map]
    have ht1 : toString (1 : Nat) = "1" := by decide
    rw [ht1] at h4
    rw [h2, h3, h4]

/-! ## Claim C8: missed-word counting -/

/-- A successful sink close changes only the sink stack and the output. -/
theorem flexEmitClose_frame {st st' : FlexState} {nn : NSName} {q : String}
    (h : flexEmitClose st nn q = .ok st') :
    ∃ sk o, st' = { st with sinkStack := sk, out := o } := by
  unfold flexEmitClose at h
  split at h
  · exact Except.noConfusion h
  · split at h
    · injection h with h'
      subst h'
      exact ⟨_, _, rfl⟩
    · exact Except.noConfusion h

/-- Emitting text changes only the output. -/
theorem flexBaseChars_frame {st st' : FlexState} {s : String}
    (h : flexBaseChars st s = .ok st') :
    ∃ sk o, st' = { st with sinkStack := sk, out := o } := by
  unfold flexBaseChars at h
  split at h
  · exact Except.noConfusion h
  · injection h with h'
    subst h'
    exact ⟨_, _, rfl⟩

/-- One table-cell emission changes only the sink stack and the output. -/
theorem tableCell_frame {st st' : FlexState} {e : String}
    (h : (do
      let st := flexStartElement st "td" none
      let st ← flexBaseChars st e
      flexEndElement st "td") = .ok st') :
    ∃ sk o, st' = { st with sinkStack := sk, out := o } := by
  obtain ⟨st₁, h1, h2⟩ := except_bind_ok_inv h
  obtain ⟨sk1, o1, rfl⟩ := flexBaseChars_frame h1
  obtain ⟨sk2, o2, hq⟩ := flexEmitClose_frame h2
  exact ⟨sk2, o2, hq⟩

/-- A table row emission changes only the sink stack and the output. -/
theorem createTableRow_frame {entries : List String} :
    ∀ {st st' : FlexState},
    createTableRow st entries = .ok st' →
    ∃ sk o, st' = { st with sinkStack := sk, out := o } := by
  intro st st' h
  unfold createTableRow at h
  obtain ⟨st₁, h1, h2⟩ := except_bind_ok_inv h
  obtain ⟨sk2, o2, hq⟩ := flexEmitClose_frame h2
  suffices hfold : ∀ (l : List String) (s s' : FlexState),
      l.foldlM (fun st e => do
        let st := flexStartElement st "td" none
        let st ← flexBaseChars st e
        flexEndElement st "td") s = .ok s' →
      ∃ sk o, s' = { s with sinkStack := sk, out := o } by
    obtain ⟨sk1, o1, hst₁⟩ := hfold entries _ st₁ h1
    subst hst₁
    exact ⟨sk2, o2, hq⟩
  intro l
  induction l with
  | nil =>
    intro s s' hf
    injection hf with hf'
    subst hf'
    exact ⟨_, _, rfl⟩
  | cons e es ih =>
    intro s s' hf
    rw [List.foldlM_cons] at hf
    obtain ⟨s₁, hf1, hf2⟩ := except_bind_ok_inv hf
    obtain ⟨ska, oa, rfl⟩ := tableCell_frame hf1
    obtain ⟨skb, ob, hs'⟩ := ih _ _ hf2
    exact ⟨skb, ob, hs'⟩

/-- The annotation-table emission changes only the sink stack and the
output. -/
theorem createFLExWord_frame {st st' : FlexState} {fw : Option FLExWord}
    (h : createFLExWord st fw = .ok st') :
    ∃ sk o, st' = { st with sinkStack := sk, out := o } := by
  cases fw with
  | none =>
    injection h with h'
    subst h'
    exact ⟨_, _, rfl⟩
  | some w =>
    unfold createFLExWord at h
    obtain ⟨st₁, h1, h2⟩ := except_bind_ok_inv h
    obtain ⟨sk1, o1, rfl⟩ := flexBaseChars_frame h1
    obtain ⟨st₂, h3, h4⟩ := except_bind_ok_inv h2
    obtain ⟨sk2, o2, rfl⟩ := flexEmitClose_frame h3
    obtain ⟨st₃, h5, h6⟩ := except_bind_ok_inv h4
    have hst₃ : ∃ sk o, st₃ = { st with sinkStack := sk, out := o } := by
      unfold createGlossRows at h5
      split at h5
      · obtain ⟨stx, hx1, hx2⟩ := except_bind_ok_inv h5
        obtain ⟨ska, oa, rfl⟩ := createTableRow_frame hx1
        obtain ⟨skb, ob, hy⟩ := createTableRow_frame hx2
        exact ⟨skb, ob, hy⟩
      · injection h5 with h5'
        subst h5'
        exact ⟨_, _, rfl⟩
    obtain ⟨sk3, o3, rfl⟩ := hst₃
    obtain ⟨st₄, h7, h8⟩ := except_bind_ok_inv h6
    obtain ⟨sk4, o4, rfl⟩ := flexBaseChars_frame h7
    obtain ⟨st₅, h9, h10⟩ := except_bind_ok_inv h8
    obtain ⟨sk5, o5, rfl⟩ := flexEmitClose_frame h9
    obtain ⟨sk6, o6, hz⟩ := flexEmitClose_frame h10
    exact ⟨sk6, o6, hz⟩

/-- The annotator's counters over a fold are exactly described by
`glossHits`: `total` grows by the number of non-empty marked-word spans
closed, `missed` by the number of them whose lookup is absent. -/
theorem flexFold_counts (d : FDict) : ∀ (evs : List SaxEvent)
    (st st' : FlexState),
    evs.foldlM (flexStep d) st = .ok st' →
    st'.total = st.total +
      (glossHits d evs st.inMark st.word st.sect).length ∧
    st'.missed = st.missed +
      ((glossHits d evs st.inMark st.word st.sect).filter
        (fun b => !b)).length
  | [], st, st', h => by
    injection h with h'
    subst h'
    simp [glossHits]
  | ev :: evs, st, st', h => by
    rw [List.foldlM_cons] at h
    obtain ⟨st₁, h1, h2⟩ := except_bind_ok_inv h
    have IH := flexFold_counts d evs st₁ st' h2
    cases ev with
    | start nn q attrs =>
      simp only [flexStep] at h1
      cases hmark : (q == "mark") with
      | true =>
        rw [hmark] at h1
        simp only [if_true] at h1
        injection h1 with h1'
        subst h1'
        simp only [flexEmitOpen, flexStartElement] at IH
        simp only [glossHits, hmark, if_true]
        exact IH
      | false =>
        rw [hmark] at h1
        simp only [Bool.false_eq_true, if_false] at h1
        cases hdiv : (q == "div") with
        | true =>
          rw [hdiv] at h1
          simp only [if_true] at h1
          rcases hid : attrsGet attrs (none, "id") with _ | newSection <;>
            rw [hid] at h1
          · injection h1 with h1'
            subst h1'
            simp only [flexEmitOpen] at IH
            simp only [glossHits, hmark, hdiv, hid, Bool.false_eq_true,
              if_false, if_true]
            exact IH
          · dsimp only at h1
            by_cases hns : newSection ≠ ""
            · rw [if_pos hns] at h1
              injection h1 with h1'
              subst h1'
              simp only [flexEmitOpen] at IH
              simp only [glossHits, hmark, hdiv, hid, Bool.false_eq_true,
                if_false, if_true, if_pos hns]
              exact IH
            · rw [if_neg hns] at h1
              injection h1 with h1'
              subst h1'
              simp only [flexEmitOpen] at IH
              simp only [glossHits, hmark, hdiv, hid, Bool.false_eq_true,
                if_false, if_true, if_neg hns]
              exact IH
        | false =>
          rw [hdiv] at h1
          simp only [Bool.false_eq_true, if_false] at h1
          injection h1 with h1'
          subst h1'
          simp only [flexEmitOpen] at IH
          simp only [glossHits, hmark, hdiv, Bool.false_eq_true, if_false]
          exact IH
    | chars s =>
      simp only [flexStep] at h1
      obtain ⟨sk, o, rfl⟩ := flexBaseChars_frame h1
      cases hin : st.inMark with
      | true =>
        simp only [glossHits, hin, if_true]
        simp only [hin, if_true] at IH
        simpa using IH
      | false =>
        simp only [glossHits, hin, Bool.false_eq_true, if_false]
        simp only [hin, Bool.false_eq_true, if_false] at IH
        simpa using IH
    | stop nn q =>
      simp only [flexStep] at h1
      obtain ⟨st₀, hA, hB⟩ := except_bind_ok_inv h1
      obtain ⟨sk0, o0, rfl⟩ := flexEmitClose_frame hA
      cases hmark : (q == "mark") with
      | false =>
        rw [hmark] at hB
        simp only [Bool.false_eq_true, if_false] at hB
        injection hB with hB'
        subst hB'
        simp only [glossHits, hmark, Bool.false_eq_true, if_false]
        exact IH
      | true =>
        rw [hmark] at hB
        simp only [if_true] at hB
        by_cases hw : st.word ≠ ""
        · rw [if_pos hw] at hB
          simp only [glossHits, hmark, if_true, if_pos hw]
          by_cases hmiss : (FLExDict.lookup d st.sect st.word).isNone = true
          · rw [if_pos hmiss] at hB
            obtain ⟨stB, hB1, hB2⟩ := except_bind_ok_inv hB
            obtain ⟨skB, oB, rfl⟩ := createFLExWord_frame hB1
            obtain ⟨stC, hC1, hC2⟩ := except_bind_ok_inv hB2
            obtain ⟨skC, oC, rfl⟩ := flexEmitClose_frame hC1
            obtain ⟨stD, hD1, hD2⟩ := except_bind_ok_inv hC2
            obtain ⟨skD, oD, rfl⟩ := flexEmitClose_frame hD1
            injection hD2 with hD2'
            subst hD2'
            simp only [flexStartElement, flexEmitOpen] at IH
            have hsome : (FLExDict.lookup d st.sect st.word).isSome = false := by
              rcases hl : FLExDict.lookup d st.sect st.word with _ | v
              · rfl
              · rw [hl] at hmiss
                exact absurd hmiss (by simp)
            rw [hsome]
            constructor
            · rw [IH.1]
              simp only [List.length_cons]
              omega
            · rw [IH.2]
              simp only [List.filter_cons, Bool.not_false, if_true,
                List.length_cons]
              omega
          · rw [if_neg hmiss] at hB
            obtain ⟨stB, hB1, hB2⟩ := except_bind_ok_inv hB
            obtain ⟨skB, oB, rfl⟩ := createFLExWord_frame hB1
            obtain ⟨stC, hC1, hC2⟩ := except_bind_ok_inv hB2
            obtain ⟨skC, oC, rfl⟩ := flexEmitClose_frame hC1
            obtain ⟨stD, hD1, hD2⟩ := except_bind_ok_inv hC2
            obtain ⟨skD, oD, rfl⟩ := flexEmitClose_frame hD1
            injection hD2 with hD2'
            subst hD2'
            simp only [flexStartElement, flexEmitOpen] at IH
            have hsome : (FLExDict.lookup d st.sect st.word).isSome = true := by
              rcases hl : FLExDict.lookup d st.sect st.word with _ | v
              · rw [hl] at hmiss
                exact absurd rfl hmiss
              · rfl
            rw [hsome]
            constructor
            · rw [IH.1]
              simp only [List.length_cons]
              omega
            · rw [IH.2]
              simp only [List.filter_cons, Bool.not_true, Bool.false_eq_true,
                if_false]
        · rw [if_neg hw] at hB
          obtain ⟨stB, hB1, hB2⟩ := except_bind_ok_inv hB
          obtain ⟨skB, oB, rfl⟩ := flexEmitClose_frame hB1
          injection hB2 with hB2'
          subst hB2'
          simp only at IH
          push_neg at hw
          simp only [glossHits, hmark, if_true, hw, ne_eq,
            not_true_eq_false, if_false]
          exact IH

/-- C8: after one full gloss-annotation pass (from incoming class-counter
values `total0`/`missed0`), `total` has grown by the number of marked-word
spans that closed with non-empty text, and `missed` by the number of those
whose dictionary lookup returned absent — each counter incremented exactly
once per non-empty marked word at span close, and both available in the
final state. -/
theorem c8_missed_word_counting (d : FDict) (evs : List SaxEvent)
    (total0 missed0 : Nat) (st' : FlexState)
    (h : flexRun d total0 missed0 evs = .ok st') :
    st'.total = total0 + (glossHits d evs false "" "").length ∧
    st'.missed = missed0 +
      ((glossHits d evs false "" "").filter (fun b => !b)).length :=
  flexFold_counts d evs ⟨[], false, "", "", 0, total0, missed0, []⟩ st' h

/-- Witness for C8: a concrete document with ten non-empty marked words of
which three have no dictionary entry yields `total = 10`, `missed = 3` on
a pass starting from zeroed counters. -/
theorem c8_missed_word_counting_witness :
    (glossHits tenWordDict tenWordDoc false "" "").length = 10 ∧
    ((glossHits tenWordDict tenWordDoc false "" "").filter
      (fun b => !b)).length = 3 ∧
    (flexRun tenWordDict 0 0 tenWordDoc).map
      (fun st => (st.total, st.missed)) = .ok (10, 3) := by
  refine ⟨by decide, by decide, ?_⟩
  cases hrun : flexRun tenWordDict 0 0 tenWordDoc with
  | error e =>
    have hok : (flexRun tenWordDict 0 0 tenWordDoc).isOk = true := by decide
    rw [hrun] at hok
    exact Bool.noConfusion hok
  | ok st' =>
    obtain ⟨h1, h2⟩ := c8_missed_word_counting tenWordDict tenWordDoc 0 0
      st' hrun
    simp only [Except.map]
    rw [h1, h2]
    have ha : (glossHits tenWordDict tenWordDoc false "" "").length = 10 :=
      by decide
    have hb : ((glossHits tenWordDict tenWordDoc false "" "").filter
      (fun b => !b)).length = 3 := by decide
    rw [ha, hb]

/-! ## Claim C5 (amended): what a second normalization pass does -/

/-- Characters produced by the replacement scanner come from the input or
from the replacement text. -/
theorem pyReplaceFuel_chars (old nw : List Char) : ∀ (fuel : Nat)
    (s : List Char) (c : Char),
    c ∈ pyReplaceFuel old nw fuel s → c ∈ s ∨ c ∈ nw
  | _, [], c, h => by simp [pyReplaceFuel] at h
  | 0, c0 :: rest, c, h => by
    simp only [pyReplaceFuel] at h
    exact .inl h
  | fuel + 1, c0 :: rest, c, h => by
    simp only [pyReplaceFuel] at h
    split at h
    · rcases List.mem_append.mp h with h | h
      · exact .inr h
      · rcases pyReplaceFuel_chars old nw fuel _ c h with h | h
        · exact .inl (List.drop_subset _ _ h)
        · exact .inr h
    · rcases List.mem_cons.mp h with rfl | h
      · exact .inl (List.mem_cons_self _ _)
      · rcases pyReplaceFuel_chars old nw fuel rest c h with h | h
        · exact .inl (List.mem_cons_of_mem _ h)
        · exact .inr h

/-- A Boolean character predicate true on the input and on every
replacement value survives the whole accent-table fold. -/
theorem foldl_replace_pred (p : Char → Bool) : ∀ (tbl : List (String × String))
    (s : List Char),
    (∀ kv ∈ tbl, ∀ c ∈ kv.2.toList, p c = true) →
    (∀ c ∈ s, p c = true) →
    ∀ c ∈ tbl.foldl (fun s kv => pyReplace kv.1.toList kv.2.toList s) s,
      p c = true
  | [], s, _, hs, c, hc => hs c hc
  | kv :: tbl, s, htbl, hs, c, hc => by
    rw [List.foldl_cons] at hc
    refine foldl_replace_pred p tbl _
      (fun kv' hkv' => htbl kv' (List.mem_cons_of_mem _ hkv')) ?_ c hc
    intro c' hc'
    rcases pyReplaceFuel_chars kv.1.toList kv.2.toList s.length s c' hc' with
      h | h
    · exact hs c' h
    · exact htbl kv (List.mem_cons_self _ _) c' h

/-- Lowercasing is idempotent on the modelled repertoire. -/
theorem pyLowerChar_idem (c : Char) :
    pyLowerChar (pyLowerChar c) = pyLowerChar c := by
  rcases h : lowerTable.find? (·.1 == c) with _ | kv
  · have h1 : pyLowerChar c = c := by simp [pyLowerChar, h]
    rw [h1, h1]
  · have h1 : pyLowerChar c = kv.2 := by simp [pyLowerChar, h]
    rw [h1]
    have hmem := List.mem_of_find?_eq_some h
    have hall : lowerTable.all
        (fun kv => (lowerTable.find? (·.1 == kv.2)).isNone) = true := by
      decide
    have hnone := List.all_eq_true.mp hall kv hmem
    rcases h2 : lowerTable.find? (·.1 == kv.2) with _ | kv2
    · simp [pyLowerChar, h2]
    · rw [h2] at hnone
      exact absurd hnone (by simp)

/-- Lowercasing never produces whitespace from non-whitespace. -/
theorem pyLowerChar_not_space {c : Char} (h : pyIsSpace c = false) :
    pyIsSpace (pyLowerChar c) = false := by
  rcases hf : lowerTable.find? (·.1 == c) with _ | kv
  · simpa [pyLowerChar, hf] using h
  · have h1 : pyLowerChar c = kv.2 := by simp [pyLowerChar, hf]
    rw [h1]
    have hmem := List.mem_of_find?_eq_some hf
    have hall : lowerTable.all (fun kv => !pyIsSpace kv.2) = true := by
      decide
    have := List.all_eq_true.mp hall kv hmem
    simpa using this

/-- The bracket scanner only keeps characters of its input. -/
theorem subBracketedFuel_subset : ∀ (fuel : Nat) (s : List Char)
    (c : Char), c ∈ subBracketedFuel fuel s → c ∈ s
  | _, [], c, h => by simp [subBracketedFuel] at h
  | 0, c0 :: rest, c, h => by simpa [subBracketedFuel] using h
  | fuel + 1, c0 :: rest, c, h => by
    simp only [subBracketedFuel] at h
    split at h
    · split at h
      · rename_i heq
        split at h
        · have h1 := subBracketedFuel_subset fuel _ c h
          have h2 : c ∈ rest.dropWhile isWordChar := by
            rw [heq]
            exact List.mem_cons_of_mem _ h1
          exact List.mem_cons_of_mem _
            ((List.dropWhile_sublist _).subset h2)
        · rcases List.mem_cons.mp h with rfl | h
          · exact List.mem_cons_self _ _
          · exact List.mem_cons_of_mem _
              (subBracketedFuel_subset fuel rest c h)
      · rcases List.mem_cons.mp h with rfl | h
        · exact List.mem_cons_self _ _
        · exact List.mem_cons_of_mem _
            (subBracketedFuel_subset fuel rest c h)
    · rcases List.mem_cons.mp h with rfl | h
      · exact List.mem_cons_self _ _
      · exact List.mem_cons_of_mem _
          (subBracketedFuel_subset fuel rest c h)

/-- On bracket-free input the bracket scanner is the identity. -/
theorem subBracketedFuel_id : ∀ (fuel : Nat) (s : List Char),
    '[' ∉ s → subBracketedFuel fuel s = s
  | _, [], _ => by cases ‹Nat› <;> rfl
  | 0, c0 :: rest, _ => rfl
  | fuel + 1, c0 :: rest, h => by
    have hc0 : (c0 == '[') = false := by
      simp only [List.mem_cons, not_or] at h
      simpa using fun heq => h.1 heq.symm
    simp only [subBracketedFuel, hc0, Bool.false_eq_true, if_false]
    rw [subBracketedFuel_id fuel rest
      (fun hmem => h (List.mem_cons_of_mem _ hmem))]

/-- A map that fixes every member is the identity. -/
theorem map_id_of_mem {f : Char → Char} : ∀ (l : List Char),
    (∀ c ∈ l, f c = c) → l.map f = l
  | [], _ => rfl
  | c :: rest, h => by
    rw [List.map_cons, h c (List.mem_cons_self _ _),
      map_id_of_mem rest (fun c' hc' => h c' (List.mem_cons_of_mem _ hc'))]

/-- Every character of a normalized string is `goodChar`: not whitespace,
fixed by lowercasing, and not punctuation. -/
theorem stripAccents_chars_good (s : List Char) :
    ∀ c ∈ stripAccentsAndSpacesL s, goodChar c = true := by
  intro c hc
  simp only [stripAccentsAndSpacesL] at hc
  rw [List.mem_filter] at hc
  obtain ⟨hc4, hpunct⟩ := hc
  have hc3 := subBracketedFuel_subset _ _ c hc4
  rw [List.mem_map] at hc3
  obtain ⟨c0, hc0, rfl⟩ := hc3
  rw [List.mem_filter] at hc0
  obtain ⟨_, hspace0⟩ := hc0
  simp only [goodChar, Bool.and_eq_true]
  refine ⟨⟨?_, ?_⟩, hpunct⟩
  · rw [pyLowerChar_not_space (by simpa using hspace0)]
    rfl
  · rw [pyLowerChar_idem]
    exact beq_self_eq_true _

/-- Accent folding preserves `goodChar` (every replacement value consists
of good characters). -/
theorem accentFold_chars_good {t : List Char}
    (ht : ∀ c ∈ t, goodChar c = true) :
    ∀ c ∈ accentFold t, goodChar c = true := by
  refine foldl_replace_pred goodChar accentTable t ?_ ht
  intro kv hkv c hc
  have hall : accentTable.all (fun kv => kv.2.toList.all goodChar) = true :=
    by decide
  exact List.all_eq_true.mp (List.all_eq_true.mp hall kv hkv) c hc

/-- Normalization is the identity on strings of good characters after the
accent fold — so on such strings each of steps 2-5 fixes the string. -/
theorem stripAccents_fix_of_good {u : List Char}
    (hu : ∀ c ∈ u, goodChar c = true) :
    (((u.filter (fun c => !pyIsSpace c)).map pyLowerChar
      |> subBracketed).filter (fun c => !punctList.contains c)) = u := by
  have h2 : u.filter (fun c => !pyIsSpace c) = u := by
    rw [List.filter_eq_self]
    intro c hc
    have := hu c hc
    simp only [goodChar, Bool.and_eq_true] at this
    exact this.1.1
  rw [h2]
  have h3 : u.map pyLowerChar = u := by
    refine map_id_of_mem u ?_
    intro c hc
    have := hu c hc
    simp only [goodChar, Bool.and_eq_true, beq_iff_eq] at this
    exact this.1.2
  rw [h3]
  have h4 : subBracketed u = u := by
    rw [subBracketed]
    refine subBracketedFuel_id u.length u ?_
    intro hmem
    have := hu '[' hmem
    simp only [goodChar, Bool.and_eq_true] at this
    have hbr : punctList.contains '[' = true := by decide
    rw [hbr] at this
    exact Bool.noConfusion this.2
  rw [h4]
  rw [List.filter_eq_self]
  intro c hc
  have := hu c hc
  simp only [goodChar, Bool.and_eq_true] at this
  exact this.2

/-- On good characters, a full normalization pass reduces to the accent
fold alone. -/
theorem stripAccentsAndSpacesL_of_good (l : List Char)
    (hl : ∀ c ∈ l, goodChar c = true) :
    stripAccentsAndSpacesL l = accentFold l := by
  have hu := accentFold_chars_good hl
  simp only [stripAccentsAndSpacesL]
  exact stripAccents_fix_of_good hu

/-- C5 amended: normalization is NOT idempotent in general (see the
counterexample); what holds instead is that a second application of
`strip_accents_and_spaces` coincides with re-applying only the
accent-table replacement step to the normalized string — so normalization
is idempotent exactly on inputs whose normalized form contains no
accent-table key as a substring. -/
theorem c5_amended_second_pass (s : String) :
    strip_accents_and_spaces (strip_accents_and_spaces s) =
      accentFoldStr (strip_accents_and_spaces s) := by
  have hml : ∀ l : List Char, (⟨l⟩ : String).toList = l := fun l => rfl
  simp only [strip_accents_and_spaces, accentFoldStr, hml]
  rw [stripAccentsAndSpacesL_of_good _ (stripAccents_chars_good s.data)]
